import Mathlib

/-!
Verification development for the ATEM audio auto-switch engine
(`src/lib/AudioLevelTracker.js`, `src/lib/SwitchDecider.js`,
`src/auto-switch-atem.js`, `src/lib/audio.js`, `src/config.js`).

Modelling conventions:
* JS timestamps (`Date.now()` values, millisecond durations) are `Int`,
  so that subtraction and comparisons behave exactly as in JS.
* Normalized audio levels and thresholds are `ℚ` (exact arithmetic on
  the values the logic compares); the level codec, which performs real
  transcendental math (`Math.pow`), is modelled over `ℝ`.
* A JS `Map` is an insertion-ordered association list: `set` of a fresh
  key appends at the end, `set` of an existing key updates in place,
  iteration follows that order.
* `null`/`undefined` are `Option.none`.  `cameraMapping[i]` is modelled
  as `Option String` holding the configured camera name (`?.name`
  projects it; truthiness of the entry is `isSome`).
* Each evaluation happens at a single instant `now` (the source calls
  `Date.now()` several times inside one tick; those calls are modelled
  as returning the same instant).
* The engine is modelled in its connected state (`isConnected = true`);
  connection management is outside the decision logic.
-/

/-- One stored audio sample (`{ volume, db, timestamp }` in
`AudioLevelTracker.store`); the opaque `raw` debug payload is omitted as
it is never read.  `db = none` models `-Infinity` decibels. -/
structure Sample where
  volume : ℚ
  db : Option ℚ
  timestamp : Int
deriving DecidableEq, Repr

/-- Audio section of `CONFIG` (`config.js`).  Fields read through `??`
in the source are `Option` with the same default applied at use site. -/
structure AudioConfig where
  volumeThreshold : ℚ
  holdTime : Int
  cooldownTime : Int
  cooldownWideMs : Option Int
  minVolumeDifference : ℚ
  switchDelayMs : Option Int
  switchDelayWideMs : Option Int
  wideHoldBeforeSingleMs : Option Int

/-- `CONFIG.detection`. -/
structure DetectionConfig where
  samplesForAverage : Option Nat

/-- The parts of `CONFIG` the tracker/decider/scheduler read.
`cameraMapping i` is the configured name of input `i` (none if the
input is not in the mapping).  `wideCameraId` is modelled as a finite
integer (the source additionally guards with `Number.isFinite`). -/
structure Config where
  cameraMapping : Int → Option String
  wideCameraId : Int
  silenceToWideMs : Int
  audio : AudioConfig
  detection : Option DetectionConfig

/-- `this.config.detection?.samplesForAverage ?? 30`. -/
def Config.maxSamples (cfg : Config) : Nat :=
  (cfg.detection.bind DetectionConfig.samplesForAverage).getD 30

/-- State of `AudioLevelTracker`: the per-input sliding windows
(insertion-ordered JS `Map`) and the process-wide last-activity time. -/
structure AudioLevelTracker where
  levels : List (Int × List Sample)
  lastTimeAnyAudio : Int
deriving DecidableEq

/-- Fresh tracker (`constructor`): empty map, sentinel `0`. -/
def AudioLevelTracker.init : AudioLevelTracker := ⟨[], 0⟩

/-- JS `Map.prototype.get`. -/
def mapLookup : List (Int × List Sample) → Int → Option (List Sample)
  | [], _ => none
  | (k, v) :: rest, key => if k = key then some v else mapLookup rest key

/-- JS `Map.prototype.set`: update in place if present, append if
absent. -/
def mapSet : List (Int × List Sample) → Int → List Sample → List (Int × List Sample)
  | [], key, v => [(key, v)]
  | (k, w) :: rest, key, v =>
    if k = key then (key, v) :: rest else (k, w) :: mapSet rest key v

/-- Window of one input (`this.levels.get(inputId)`, `[]` if absent). -/
def AudioLevelTracker.windowOf (t : AudioLevelTracker) (inputId : Int) : List Sample :=
  (mapLookup t.levels inputId).getD []

/-- `list.push(sample)` followed by `if (list.length > maxSamples) list.shift()`. -/
def capAppend (list : List Sample) (s : Sample) (maxSamples : Nat) : List Sample :=
  if (list ++ [s]).length > maxSamples then (list ++ [s]).tail else list ++ [s]

/-- `AudioLevelTracker.store(inputId, normalizedLevel, db, raw)` at
instant `now` (the source's two `Date.now()` calls). -/
def AudioLevelTracker.store (t : AudioLevelTracker) (cfg : Config) (inputId : Int)
    (normalizedLevel : ℚ) (db : Option ℚ) (now : Int) : AudioLevelTracker :=
  { levels :=
      mapSet t.levels inputId
        (capAppend (t.windowOf inputId) ⟨normalizedLevel, db, now⟩ cfg.maxSamples)
    lastTimeAnyAudio :=
      if normalizedLevel > cfg.audio.volumeThreshold then now else t.lastTimeAnyAudio }

/-- `list.reduce((s, l) => s + l.volume, 0) / list.length`. -/
def avgVolume (list : List Sample) : ℚ :=
  (list.map Sample.volume).sum / list.length

/-- `list[0].timestamp` (callers guard non-emptiness). -/
def headTimestamp : List Sample → Int
  | [] => 0
  | s :: _ => s.timestamp

/-- One element of `getCamerasWithAudio`'s result. -/
structure ActiveCamera where
  inputId : Int
  avgVolume : ℚ
  levels : List Sample
deriving DecidableEq, Repr

/-- The loop body of `getCamerasWithAudio`: `continue` is `none`. -/
def activeEntry (cfg : Config) (now : Int) : Int × List Sample → Option ActiveCamera
  | (key, list) =>
    if list.length = 0 ∨ (cfg.cameraMapping key).isNone then none
    else
      let avg := avgVolume list
      if avg ≤ cfg.audio.volumeThreshold then none
      else if now - headTimestamp list < cfg.audio.holdTime then none
      else some ⟨key, avg, list⟩

/-- `AudioLevelTracker.getCamerasWithAudio(now)`. -/
def AudioLevelTracker.getCamerasWithAudio (t : AudioLevelTracker) (cfg : Config)
    (now : Int) : List ActiveCamera :=
  t.levels.filterMap (activeEntry cfg now)

/-- Average of the current camera's window as computed inside
`getBestSingleCamera` (`0` when the window is absent or empty). -/
def AudioLevelTracker.currentAvg (t : AudioLevelTracker) (currentCameraId : Int) : ℚ :=
  let currentList := (mapLookup t.levels currentCameraId).getD []
  if currentList.length > 0 then avgVolume currentList else 0

/-- The `continue` filter of `getBestSingleCamera`'s loop: keep a
candidate camera iff there is no current camera, or its average exceeds
the current camera's by at least `minVolumeDifference`. -/
def keepAgainstCurrent (cfg : Config) (t : AudioLevelTracker)
    (currentCameraId : Option Int) (c : ActiveCamera) : Bool :=
  match currentCameraId with
  | none => true
  | some cur => !(c.avgVolume - t.currentAvg cur < cfg.audio.minVolumeDifference)

/-- Loop body of `getBestSingleCamera`: running `(maxVolume, best)`,
updated only on a strict increase. -/
def bestStep (keep : ActiveCamera → Bool) (acc : ℚ × Option ActiveCamera)
    (c : ActiveCamera) : ℚ × Option ActiveCamera :=
  if keep c ∧ c.avgVolume > acc.1 then (c.avgVolume, some c) else acc

/-- `AudioLevelTracker.getBestSingleCamera(now, currentCameraId)`. -/
def AudioLevelTracker.getBestSingleCamera (t : AudioLevelTracker) (cfg : Config)
    (now : Int) (currentCameraId : Option Int) : Option ActiveCamera :=
  ((t.getCamerasWithAudio cfg now).foldl
    (bestStep (keepAgainstCurrent cfg t currentCameraId)) (0, none)).2

/-- `AudioLevelTracker.getSilenceDuration(now)`. -/
def AudioLevelTracker.getSilenceDuration (t : AudioLevelTracker) (now : Int) : Int :=
  now - t.lastTimeAnyAudio

/-- Reason attached to a switch decision. -/
inductive Reason where
  | silence
  | multi
  | single
deriving DecidableEq, Repr

/-- A decision object returned by `SwitchDecider.decide`, with its
reason-specific evidence fields. -/
inductive Decision where
  | silence (switchTo : Int) (silenceDuration : Int)
  | multi (switchTo : Int) (cameraNames : List (Option String))
  | single (switchTo : Int) (avgVolume : ℚ) (levels : List Sample)
deriving DecidableEq, Repr

/-- `decision.switchTo`. -/
def Decision.switchTo : Decision → Int
  | .silence t _ => t
  | .multi t _ => t
  | .single t _ _ => t

/-- `decision.reason`. -/
def Decision.reason : Decision → Reason
  | .silence _ _ => .silence
  | .multi _ _ => .multi
  | .single _ _ _ => .single

/-- `this.wideConfig` of `SwitchDecider` (`Number.isFinite(wideId) &&
config.cameraMapping[wideId]`; the id is finite by modelling). -/
def wideConfigured (cfg : Config) : Bool :=
  (cfg.cameraMapping cfg.wideCameraId).isSome

/-- The cooldown chosen by `SwitchDecider.decide` for a candidate:
short wide cooldown when heading to the wide camera (silence/multi) or
cutting from wide to a single speaker, long cooldown otherwise. -/
def cooldownFor (cfg : Config) (currentCameraId : Option Int) (d : Decision) : Int :=
  if (d.reason = Reason.silence ∨ d.reason = Reason.multi)
      ∨ (currentCameraId = some cfg.wideCameraId ∧ d.reason = Reason.single) then
    cfg.audio.cooldownWideMs.getD 400
  else cfg.audio.cooldownTime

/-- `SwitchDecider.decide(tracker, currentCameraId, now, lastSwitchTime)`. -/
def SwitchDecider.decide (cfg : Config) (t : AudioLevelTracker)
    (currentCameraId : Option Int) (now lastSwitchTime : Int) : Option Decision :=
  let camerasWithAudio := t.getCamerasWithAudio cfg now
  let silenceDuration := t.getSilenceDuration now
  let candidate : Option Decision :=
    if camerasWithAudio.length = 0 ∧ wideConfigured cfg
        ∧ currentCameraId ≠ some cfg.wideCameraId
        ∧ t.lastTimeAnyAudio > 0
        ∧ silenceDuration ≥ cfg.silenceToWideMs then
      some (Decision.silence cfg.wideCameraId silenceDuration)
    else if wideConfigured cfg ∧ camerasWithAudio.length ≥ 2
        ∧ currentCameraId ≠ some cfg.wideCameraId then
      some (Decision.multi cfg.wideCameraId
        (camerasWithAudio.map fun c => cfg.cameraMapping c.inputId))
    else if camerasWithAudio.length = 1 then
      match t.getBestSingleCamera cfg now currentCameraId with
      | some best =>
        if some best.inputId ≠ currentCameraId then
          some (Decision.single best.inputId best.avgVolume best.levels)
        else none
      | none => none
    else none
  match candidate with
  | none => none
  | some cand =>
    if lastSwitchTime > 0 ∧ now - lastSwitchTime < cooldownFor cfg currentCameraId cand then
      none
    else some cand

/-- `this.pendingSwitch` entry: `{ targetId, decision, scheduledAt }`. -/
structure PendingSwitch where
  targetId : Int
  decision : Decision
  scheduledAt : Int
deriving DecidableEq, Repr

/-- Mutable fields of `AtemAutoSwitch` driven by `evaluateSwitch` /
`switchToCamera`. -/
structure SchedulerState where
  currentCamera : Option Int
  lastSwitchTime : Int
  pendingSwitch : Option PendingSwitch
  wideHoldSingleStartedAt : Option Int
  wideHoldSingleTargetId : Option Int
deriving DecidableEq, Repr

/-- Constructor state of `AtemAutoSwitch`. -/
def SchedulerState.init : SchedulerState := ⟨none, 0, none, none, none⟩

/-- The source guards with `if (!decision?.switchTo)`: a missing
decision or a falsy (`0`) target is treated as "no decision". -/
def effDecision : Option Decision → Option Decision
  | none => none
  | some d => if d.switchTo = 0 then none else some d

/-- `switchToCamera(inputId, ...)`, synchronous part: unmapped input or
missing connection aborts with no state change; otherwise current
camera and last switch time are updated optimistically and the cut
command is dispatched fire-and-forget (the emitted event is the
switched-to input id). -/
def switchToCamera (cfg : Config) (s : SchedulerState) (inputId : Int) (now : Int) :
    SchedulerState × Option Int :=
  if (cfg.cameraMapping inputId).isNone then (s, none)
  else ({ s with currentCamera := some inputId, lastSwitchTime := now }, some inputId)

/-- The confirmation delay applicable to a decision
(`switchDelayWideMs ?? 300` for multi/silence, `switchDelayMs ?? 800`
otherwise), as computed in `evaluateSwitch`. -/
def delayFor (cfg : Config) (d : Decision) : Int :=
  if d.reason = Reason.multi ∨ d.reason = Reason.silence then
    cfg.audio.switchDelayWideMs.getD 300
  else cfg.audio.switchDelayMs.getD 800

/-- The delay-confirmation tail of `evaluateSwitch` (from the
`switchDelayMs` computation to the end): immediate execution when the
delay is `≤ 0`, otherwise (re)start or mature the pending switch. -/
def proceedToDelay (cfg : Config) (s : SchedulerState) (d : Decision) (now : Int) :
    SchedulerState × Option Int :=
  let switchDelayMs := delayFor cfg d
  if switchDelayMs ≤ 0 then switchToCamera cfg s d.switchTo now
  else
    match s.pendingSwitch with
    | none => ({ s with pendingSwitch := some ⟨d.switchTo, d, now⟩ }, none)
    | some p =>
      if p.targetId ≠ d.switchTo then
        ({ s with pendingSwitch := some ⟨d.switchTo, d, now⟩ }, none)
      else if now - p.scheduledAt < switchDelayMs then (s, none)
      else
        let r := switchToCamera cfg s p.targetId now
        ({ r.1 with pendingSwitch := none }, r.2)

/-- `evaluateSwitch` given the decider's output `decision` (the body of
`AtemAutoSwitch.evaluateSwitch` after the `decide` call). -/
def evaluateSwitchCore (cfg : Config) (s : SchedulerState) (decision : Option Decision)
    (now : Int) : SchedulerState × Option Int :=
  let wideId := cfg.wideCameraId
  let wideHoldMs := cfg.audio.wideHoldBeforeSingleMs.getD 0
  match effDecision decision with
  | none =>
    let s1 := { s with pendingSwitch := (none : Option PendingSwitch) }
    if s1.currentCamera ≠ some wideId then
      ({ s1 with wideHoldSingleStartedAt := none, wideHoldSingleTargetId := none }, none)
    else (s1, none)
  | some d =>
    if some d.switchTo = s.currentCamera then
      ({ s with pendingSwitch := none, wideHoldSingleStartedAt := none,
                wideHoldSingleTargetId := none }, none)
    else if s.currentCamera = some wideId ∧ d.reason = Reason.single ∧ wideHoldMs > 0 then
      let s1 :=
        match s.wideHoldSingleStartedAt with
        | none => { s with wideHoldSingleStartedAt := some now,
                           wideHoldSingleTargetId := some d.switchTo }
        | some _ => s
      let startedAt := s1.wideHoldSingleStartedAt.getD now
      if now - startedAt < wideHoldMs then ({ s1 with pendingSwitch := none }, none)
      else proceedToDelay cfg s1 d now
    else
      proceedToDelay cfg
        { s with wideHoldSingleStartedAt := none, wideHoldSingleTargetId := none } d now

/-- Full `AtemAutoSwitch.evaluateSwitch`: run the decider on the
current tracker view, then the scheduling logic. -/
def evaluateSwitch (cfg : Config) (s : SchedulerState) (t : AudioLevelTracker)
    (now : Int) : SchedulerState × Option Int :=
  evaluateSwitchCore cfg s
    (SwitchDecider.decide cfg t s.currentCamera now s.lastSwitchTime) now

/-- Final state after a sequence of evaluation steps driven by a step
function `f` (state transformer plus emitted switch event). -/
def runGen {α : Type} (f : SchedulerState → α → SchedulerState × Option Int) :
    SchedulerState → List α → SchedulerState
  | s, [] => s
  | s, a :: l => runGen f (f s a).1 l

/-- Per-step emitted switch events of a sequence of evaluations. -/
def traceGen {α : Type} (f : SchedulerState → α → SchedulerState × Option Int) :
    SchedulerState → List α → List (Option Int)
  | _, [] => []
  | s, a :: l => (f s a).2 :: traceGen f (f s a).1 l

/-- One scheduler-level evaluation step: input is the decider's
candidate (as handed to the scheduler) and the evaluation instant. -/
def stepCore (cfg : Config) (s : SchedulerState) (a : Option Decision × Int) :
    SchedulerState × Option Int :=
  evaluateSwitchCore cfg s a.1 a.2

/-- One full-pipeline evaluation step: input is the tracker view at the
evaluation instant. -/
def stepFull (cfg : Config) (s : SchedulerState) (a : AudioLevelTracker × Int) :
    SchedulerState × Option Int :=
  evaluateSwitch cfg s a.1 a.2

/-- A JS number as the level codec sees it: finite, infinite, or NaN
(`src/lib/audio.js`). -/
inductive JsNum where
  | fin (x : ℝ)
  | posInf
  | negInf
  | nan

/-- `dbToNormalizedLevel(db, minDb, maxDb, curve)`: `0` below `minDb`
or for non-finite input, `1` above `maxDb`, otherwise the clamped
linear interpolation raised to `curve`. -/
noncomputable def dbToNormalizedLevel (db : JsNum) (minDb maxDb curve : ℝ) : ℝ :=
  match db with
  | .fin x =>
    if x ≤ minDb then 0
    else if x ≥ maxDb then 1
    else
      let linear := (10 : ℝ) ^ (x / 20)
      let minLinear := (10 : ℝ) ^ (minDb / 20)
      let maxLinear := (10 : ℝ) ^ (maxDb / 20)
      (max 0 (min 1 ((linear - minLinear) / (maxLinear - minLinear)))) ^ curve
  | _ => 0

/-- A Fairlight level payload (`props.leftLevel` / `props.rightLevel`,
each possibly absent). -/
structure FairlightProps where
  leftLevel : Option ℝ
  rightLevel : Option ℝ

/-- `parseFairlightLevels(props, minDb, maxDb)`: levels are dB·100; a
maximum channel level at or below `-32768` is the digital-silence
sentinel.  The returned pair is `(db, normalized)`. -/
noncomputable def parseFairlightLevels (props : Option FairlightProps)
    (minDb maxDb : ℝ) : JsNum × ℝ :=
  match props with
  | none => (JsNum.negInf, 0)
  | some p =>
    let left := p.leftLevel.getD 0
    let right := p.rightLevel.getD 0
    let maxLevel := max left right
    if maxLevel ≤ -32768 then (JsNum.negInf, 0)
    else
      (JsNum.fin (maxLevel / 100),
       dbToNormalizedLevel (JsNum.fin (maxLevel / 100)) minDb maxDb (7 / 10))

/-- Arguments of one `store` invocation. -/
structure StoreOp where
  inputId : Int
  normalizedLevel : ℚ
  db : Option ℚ
  now : Int

/-- Fold a sequence of `store` calls over a tracker. -/
def storeAll (cfg : Config) : AudioLevelTracker → List StoreOp → AudioLevelTracker
  | t, [] => t
  | t, op :: ops => storeAll cfg (t.store cfg op.inputId op.normalizedLevel op.db op.now) ops

/-- Spec-side description (for the refinement claim about the window
cap): the samples stored for one input, in insertion order. -/
def specStoredSamples (i : Int) (ops : List StoreOp) : List Sample :=
  ops.filterMap fun op =>
    if op.inputId = i then some ⟨op.normalizedLevel, op.db, op.now⟩ else none

/-- The at-most-`n` most recent elements of a list, oldest first. -/
def lastN {α : Type} (n : Nat) (l : List α) : List α := l.drop (l.length - n)

/-- Characterization of one `getCamerasWithAudio` loop iteration. -/
lemma activeEntry_eq_some (cfg : Config) (now : Int) (k : Int) (w : List Sample)
    (e : ActiveCamera) :
    activeEntry cfg now (k, w) = some e ↔
      (w ≠ [] ∧ (cfg.cameraMapping k).isSome ∧
       avgVolume w > cfg.audio.volumeThreshold ∧
       now - headTimestamp w ≥ cfg.audio.holdTime ∧
       e = ⟨k, avgVolume w, w⟩) := by
  simp only [activeEntry]
  split_ifs with h1 h2 h3
  · constructor
    · intro h; exact h.elim
    · rintro ⟨hne, hmap, -, -, -⟩
      rcases h1 with h1 | h1
      · exact hne (List.length_eq_zero.mp h1)
      · rw [Option.isNone_iff_eq_none] at h1
        rw [h1] at hmap
        simp at hmap
  · constructor
    · intro h; exact h.elim
    · rintro ⟨-, -, havg, -, -⟩; exact absurd h2 (not_le.mpr havg)
  · constructor
    · intro h; exact h.elim
    · rintro ⟨-, -, -, hhold, -⟩; exact absurd h3 (not_lt.mpr hhold)
  · rw [not_or] at h1
    constructor
    · intro h
      obtain rfl := (Option.some.inj h).symm
      refine ⟨fun hw => h1.1 (by simp [hw]), ?_, not_le.mp h2, not_lt.mp h3, rfl⟩
      cases hmap : cfg.cameraMapping k with
      | none => exact absurd (by simp [hmap]) h1.2
      | some _ => simp
    · rintro ⟨-, -, -, -, rfl⟩; rfl

/-- Membership in the active-camera list, characterized input-wise. -/
lemma mem_getCamerasWithAudio (cfg : Config) (t : AudioLevelTracker) (now i : Int) :
    (∃ e ∈ t.getCamerasWithAudio cfg now, e.inputId = i) ↔
    (∃ w, (i, w) ∈ t.levels ∧ w ≠ [] ∧ (cfg.cameraMapping i).isSome ∧
      avgVolume w > cfg.audio.volumeThreshold ∧
      now - headTimestamp w ≥ cfg.audio.holdTime) := by
  unfold AudioLevelTracker.getCamerasWithAudio
  constructor
  · rintro ⟨e, he, hid⟩
    rw [List.mem_filterMap] at he
    obtain ⟨⟨k, w⟩, hmem, hf⟩ := he
    rw [activeEntry_eq_some] at hf
    obtain ⟨hne, hmap, havg, hhold, rfl⟩ := hf
    obtain rfl : k = i := hid
    exact ⟨w, hmem, hne, hmap, havg, hhold⟩
  · rintro ⟨w, hmem, hne, hmap, havg, hhold⟩
    refine ⟨⟨i, avgVolume w, w⟩, ?_, rfl⟩
    rw [List.mem_filterMap]
    exact ⟨(i, w), hmem, (activeEntry_eq_some cfg now i w _).mpr
      ⟨hne, hmap, havg, hhold, rfl⟩⟩

/-- Inversion of `SwitchDecider.decide`: every returned candidate has
passed the cooldown gate, wide-bound reasons target the wide camera,
silence needs observed activity, and single needs exactly one active
input. -/
lemma decide_inv (cfg : Config) (t : AudioLevelTracker) (cur : Option Int)
    (now last : Int) (c : Decision)
    (h : SwitchDecider.decide cfg t cur now last = some c) :
    (¬(last > 0 ∧ now - last < cooldownFor cfg cur c)) ∧
    ((c.reason = Reason.silence ∨ c.reason = Reason.multi) →
      c.switchTo = cfg.wideCameraId) ∧
    (c.reason = Reason.silence → t.lastTimeAnyAudio > 0) ∧
    (c.reason = Reason.single → (t.getCamerasWithAudio cfg now).length = 1) := by
  simp only [SwitchDecider.decide] at h
  split at h
  · exact Option.noConfusion h
  rename_i cand heq
  split at h
  · exact Option.noConfusion h
  rename_i hgate
  obtain rfl : cand = c := Option.some.inj h
  split at heq
  · rename_i h1
    obtain rfl := Option.some.inj heq
    exact ⟨hgate, fun _ => rfl, fun _ => h1.2.2.2.1,
      fun hs => by simp [Decision.reason] at hs⟩
  split at heq
  · rename_i h2
    obtain rfl := Option.some.inj heq
    exact ⟨hgate, fun _ => rfl, fun hs => by simp [Decision.reason] at hs,
      fun hs => by simp [Decision.reason] at hs⟩
  split at heq
  · rename_i h3
    split at heq
    · rename_i best hbest
      split at heq
      · obtain rfl := Option.some.inj heq
        refine ⟨hgate, fun hs => ?_, fun hs => by simp [Decision.reason] at hs,
          fun _ => h3⟩
        rcases hs with hs | hs <;> simp [Decision.reason] at hs
      · exact Option.noConfusion heq
    · exact Option.noConfusion heq
  · exact Option.noConfusion heq

/-- Concrete configuration for witnesses: the default `config.js`
values with the optional wide-hold delay set to 4 s. -/
def demoConfig : Config where
  cameraMapping := fun i => if i = 1 ∨ i = 2 ∨ i = 3 ∨ i = 4 then some "cam" else none
  wideCameraId := 3
  silenceToWideMs := 2000
  audio :=
    { volumeThreshold := 11 / 100
      holdTime := 300
      cooldownTime := 2000
      cooldownWideMs := some 400
      minVolumeDifference := 2 / 100
      switchDelayMs := some 800
      switchDelayWideMs := some 300
      wideHoldBeforeSingleMs := some 4000 }
  detection := some ⟨some 30⟩

/-- Concrete tracker with two active inputs (for witnesses). -/
def demoTracker2 : AudioLevelTracker :=
  ⟨[(1, [⟨1 / 2, none, 0⟩]), (2, [⟨1 / 2, none, 0⟩])], 500⟩

/-- C4.  Exactly-one invariant: with two or more active inputs the
decider never emits a single-reason candidate; a single-reason
candidate is emitted only when exactly one input is active. -/
theorem C4_exactly_one_invariant (cfg : Config) (t : AudioLevelTracker)
    (cur : Option Int) (now last : Int) :
    ((t.getCamerasWithAudio cfg now).length ≥ 2 →
      ∀ c, SwitchDecider.decide cfg t cur now last = some c →
        c.reason ≠ Reason.single) ∧
    (∀ c, SwitchDecider.decide cfg t cur now last = some c →
      c.reason = Reason.single → (t.getCamerasWithAudio cfg now).length = 1) := by
  constructor
  · intro h2 c hc hs
    have := (decide_inv cfg t cur now last c hc).2.2.2 hs
    omega
  · intro c hc hs
    exact (decide_inv cfg t cur now last c hc).2.2.2 hs

/-- Witness for C4 at a concrete two-active-input tracker. -/
theorem C4_exactly_one_invariant_witness :
    (demoTracker2.getCamerasWithAudio demoConfig 1000).length ≥ 2 ∧
    (∀ c, SwitchDecider.decide demoConfig demoTracker2 none 1000 0 = some c →
      c.reason ≠ Reason.single) := by
  have hlen : (demoTracker2.getCamerasWithAudio demoConfig 1000).length ≥ 2 := by
    norm_num [demoTracker2, demoConfig, AudioLevelTracker.getCamerasWithAudio,
      List.filterMap, activeEntry, avgVolume, headTimestamp]
  exact ⟨hlen, (C4_exactly_one_invariant demoConfig demoTracker2 none 1000 0).1 hlen⟩

/-- Keys of two association-list entries with equal key and nodup key
list carry the same window. -/
lemma assoc_value_unique {l : List (Int × List Sample)} {i : Int}
    {w w' : List Sample} (hnd : (l.map Prod.fst).Nodup)
    (h1 : (i, w) ∈ l) (h2 : (i, w') ∈ l) : w = w' := by
  induction l with
  | nil => cases h1
  | cons hd tl ih =>
    rw [List.map_cons, List.nodup_cons] at hnd
    rcases List.mem_cons.mp h1 with h1 | h1 <;>
      rcases List.mem_cons.mp h2 with h2 | h2
    · rw [← h1] at h2; exact (Prod.mk.injEq _ _ _ _ ▸ congrArg id h2).2.symm ▸ rfl
    · exfalso
      apply hnd.1
      rw [← h1]
      exact List.mem_map.mpr ⟨(i, w'), h2, rfl⟩
    · exfalso
      apply hnd.1
      rw [← h2]
      exact List.mem_map.mpr ⟨(i, w), h1, rfl⟩
    · exact ih hnd.2 h1 h2

/-- C5.  Active-input characterization: an input appears in
`getCamerasWithAudio(now)` iff its window is non-empty, it is mapped,
its average exceeds the threshold, and its oldest sample is at least
`holdTime` old; in particular an input whose oldest retained sample is
younger than `holdTime` never appears, regardless of average level. -/
theorem C5_active_input_characterization (cfg : Config) (t : AudioLevelTracker)
    (now i : Int) :
    ((∃ e ∈ t.getCamerasWithAudio cfg now, e.inputId = i) ↔
      (∃ w, (i, w) ∈ t.levels ∧ w ≠ [] ∧ (cfg.cameraMapping i).isSome ∧
        avgVolume w > cfg.audio.volumeThreshold ∧
        now - headTimestamp w ≥ cfg.audio.holdTime)) ∧
    (∀ w, (t.levels.map Prod.fst).Nodup → (i, w) ∈ t.levels →
      now - headTimestamp w < cfg.audio.holdTime →
      ¬∃ e ∈ t.getCamerasWithAudio cfg now, e.inputId = i) := by
  refine ⟨mem_getCamerasWithAudio cfg t now i, ?_⟩
  intro w hnd hmem hfresh happ
  obtain ⟨w', hmem', -, -, -, hold'⟩ := (mem_getCamerasWithAudio cfg t now i).mp happ
  obtain rfl : w = w' := assoc_value_unique hnd hmem hmem'
  omega

/-- Witness for C5's second part at a concrete too-fresh tracker. -/
theorem C5_active_input_characterization_witness :
    ((([(1, [⟨1 / 2, none, 900⟩])] : List (Int × List Sample)).map Prod.fst).Nodup ∧
      (1000 : Int) - headTimestamp [⟨1 / 2, none, 900⟩] < demoConfig.audio.holdTime) ∧
    ¬∃ e ∈ (AudioLevelTracker.mk [(1, [⟨1 / 2, none, 900⟩])] 900).getCamerasWithAudio
        demoConfig 1000, e.inputId = 1 :=
  ⟨⟨by simp, by norm_num [headTimestamp, demoConfig]⟩,
   (C5_active_input_characterization demoConfig
      (AudioLevelTracker.mk [(1, [⟨1 / 2, none, 900⟩])] 900) 1000 1).2
     [⟨1 / 2, none, 900⟩] (by simp) (by simp)
     (by norm_num [headTimestamp, demoConfig])⟩

/-- C6.  Silence sentinel: while the last-activity time still holds its
unset sentinel `0`, the decider never emits a silence candidate; and
`store` refreshes the last-activity time to the store instant exactly
when the stored sample's level exceeds the threshold (for any input). -/
theorem C6_silence_sentinel (cfg : Config) (t : AudioLevelTracker)
    (h : t.lastTimeAnyAudio = 0) :
    (∀ cur now last c, SwitchDecider.decide cfg t cur now last = some c →
      c.reason ≠ Reason.silence) ∧
    (∀ (t' : AudioLevelTracker) (inputId : Int) (v : ℚ) (db : Option ℚ) (now : Int),
      (t'.store cfg inputId v db now).lastTimeAnyAudio =
        if v > cfg.audio.volumeThreshold then now else t'.lastTimeAnyAudio) := by
  constructor
  · intro cur now last c hc hs
    have := (decide_inv cfg t cur now last c hc).2.2.1 hs
    omega
  · intro t' inputId v db now
    rfl

/-- Witness for C6 at the fresh tracker. -/
theorem C6_silence_sentinel_witness :
    AudioLevelTracker.init.lastTimeAnyAudio = 0 ∧
    (∀ cur now last c,
      SwitchDecider.decide demoConfig AudioLevelTracker.init cur now last = some c →
      c.reason ≠ Reason.silence) ∧
    (AudioLevelTracker.init.store demoConfig 1 (1 / 2) none 123).lastTimeAnyAudio = 123 :=
  ⟨rfl, (C6_silence_sentinel demoConfig AudioLevelTracker.init rfl).1,
   by norm_num [AudioLevelTracker.store, demoConfig]⟩

/-- `Map.get` after `Map.set` of the same key. -/
lemma mapLookup_mapSet_self (m : List (Int × List Sample)) (k : Int) (v : List Sample) :
    mapLookup (mapSet m k v) k = some v := by
  induction m with
  | nil => simp [mapSet, mapLookup]
  | cons hd tl ih =>
    obtain ⟨k', w⟩ := hd
    by_cases h : k' = k
    · simp [mapSet, h, mapLookup]
    · simp [mapSet, h, mapLookup, ih]

/-- `Map.get` after `Map.set` of a different key. -/
lemma mapLookup_mapSet_ne (m : List (Int × List Sample)) (k : Int) (v : List Sample)
    (j : Int) (h : j ≠ k) :
    mapLookup (mapSet m k v) j = mapLookup m j := by
  induction m with
  | nil =>
    have hkj : ¬(k = j) := fun hh => h hh.symm
    simp [mapSet, mapLookup, hkj]
  | cons hd tl ih =>
    obtain ⟨k', w⟩ := hd
    by_cases hk : k' = k
    · subst hk
      have hkj : ¬(k' = j) := fun hh => h hh.symm
      simp [mapSet, mapLookup, hkj]
    · simp [mapSet, hk, mapLookup, ih]

/-- A `store` call replaces the stored input's window by the capped
append of the new sample. -/
lemma store_windowOf_self (cfg : Config) (t : AudioLevelTracker) (i : Int)
    (v : ℚ) (db : Option ℚ) (now : Int) :
    (t.store cfg i v db now).windowOf i =
      capAppend (t.windowOf i) ⟨v, db, now⟩ cfg.maxSamples := by
  unfold AudioLevelTracker.store AudioLevelTracker.windowOf
  simp [mapLookup_mapSet_self]

/-- A `store` call leaves every other input's window untouched. -/
lemma store_windowOf_ne (cfg : Config) (t : AudioLevelTracker) (i j : Int)
    (v : ℚ) (db : Option ℚ) (now : Int) (h : j ≠ i) :
    (t.store cfg i v db now).windowOf j = t.windowOf j := by
  unfold AudioLevelTracker.store AudioLevelTracker.windowOf
  simp [mapLookup_mapSet_ne _ _ _ _ h]

/-- Capped append of one element commutes with taking the last `n`. -/
lemma capAppend_lastN (n : Nat) (l : List Sample) (s : Sample) :
    capAppend (lastN n l) s n = lastN n (l ++ [s]) := by
  unfold capAppend lastN
  by_cases h : n ≤ l.length
  · have hlen : (l.drop (l.length - n)).length = n := by
      rw [List.length_drop]; omega
    rw [if_pos (by rw [List.length_append, hlen]; simp)]
    rcases Nat.eq_zero_or_pos n with hn | hn
    · subst hn
      have e1 : l.drop (l.length - 0) = [] := by rw [Nat.sub_zero, List.drop_length]
      have e2 : (l ++ [s]).drop ((l ++ [s]).length - 0) = [] := by
        rw [Nat.sub_zero, List.drop_length]
      rw [e1, e2]
      rfl
    · obtain ⟨a, as, hd⟩ : ∃ a as, l.drop (l.length - n) = a :: as := by
        cases hdd : l.drop (l.length - n) with
        | nil => rw [hdd] at hlen; simp at hlen; omega
        | cons a as => exact ⟨a, as, rfl⟩
      rw [hd]
      simp only [List.cons_append, List.tail_cons]
      have has : as = l.drop (l.length - n + 1) := by
        rw [← List.tail_drop, hd, List.tail_cons]
      rw [has, List.length_append, List.length_singleton,
        List.drop_append_of_le_length (by omega : l.length + 1 - n ≤ l.length)]
      congr 2
      omega
  · rw [if_neg (by rw [List.length_append, List.length_drop]; simp; omega)]
    rw [List.length_append, List.length_singleton,
      (by omega : l.length - n = 0), (by omega : l.length + 1 - n = 0)]
    simp

/-- Folding capped appends from the last-`n` view of a prefix. -/
lemma foldCap_lastN (n : Nat) (l2 : List Sample) :
    ∀ l1 : List Sample,
      l2.foldl (fun w s => capAppend w s n) (lastN n l1) = lastN n (l1 ++ l2) := by
  induction l2 with
  | nil => intro l1; simp
  | cons s l2 ih =>
    intro l1
    rw [List.foldl_cons, capAppend_lastN, ih, List.append_assoc, List.singleton_append]

/-- A run of `store` calls folds capped appends over each window. -/
lemma storeAll_windowOf (cfg : Config) (ops : List StoreOp) :
    ∀ (t : AudioLevelTracker) (i : Int),
      (storeAll cfg t ops).windowOf i =
        (specStoredSamples i ops).foldl
          (fun w s => capAppend w s cfg.maxSamples) (t.windowOf i) := by
  induction ops with
  | nil => intro t i; rfl
  | cons op ops ih =>
    intro t i
    rw [storeAll, ih]
    unfold specStoredSamples
    rw [List.filterMap_cons]
    by_cases h : op.inputId = i
    · subst h
      rw [if_pos rfl]
      rw [List.foldl_cons, store_windowOf_self]
    · rw [if_neg h, store_windowOf_ne cfg t op.inputId i _ _ _ (Ne.symm h)]

/-- C8.  Window-cap invariant: starting from the fresh tracker, after
any sequence of `store` calls each input's window is exactly the
at-most-`maxSamples` most recent samples stored for it, in insertion
order (FIFO eviction); in particular its length is at most the cap, and
a `store` for one input never modifies another input's window. -/
theorem C8_window_cap_invariant (cfg : Config) :
    (∀ (ops : List StoreOp) (i : Int),
      (storeAll cfg AudioLevelTracker.init ops).windowOf i =
        lastN cfg.maxSamples (specStoredSamples i ops)) ∧
    (∀ (ops : List StoreOp) (i : Int),
      ((storeAll cfg AudioLevelTracker.init ops).windowOf i).length ≤ cfg.maxSamples) ∧
    (∀ (t : AudioLevelTracker) (i j : Int) (v : ℚ) (db : Option ℚ) (now : Int),
      j ≠ i → (t.store cfg i v db now).windowOf j = t.windowOf j) := by
  have key : ∀ (ops : List StoreOp) (i : Int),
      (storeAll cfg AudioLevelTracker.init ops).windowOf i =
        lastN cfg.maxSamples (specStoredSamples i ops) := by
    intro ops i
    rw [storeAll_windowOf]
    have h0 : AudioLevelTracker.init.windowOf i = lastN cfg.maxSamples [] := by
      unfold lastN
      rw [List.drop_nil]
      rfl
    rw [h0, foldCap_lastN, List.nil_append]
  refine ⟨key, fun ops i => ?_, fun t i j v db now h => store_windowOf_ne cfg t i j v db now h⟩
  rw [key]
  unfold lastN
  rw [List.length_drop]
  omega

/-- Witness for C8 (the other-input clause has a hypothesis). -/
theorem C8_window_cap_invariant_witness :
    ((2 : Int) ≠ 1) ∧
    (AudioLevelTracker.init.store demoConfig 1 (1 / 2) none 5).windowOf 2 =
      AudioLevelTracker.init.windowOf 2 :=
  ⟨by decide,
   (C8_window_cap_invariant demoConfig).2.2 AudioLevelTracker.init 1 2 (1 / 2) none 5
     (by decide)⟩

/-- C9.  Level-codec boundary behavior: `dbToNormalizedLevel` is
exactly `0` at or below `minDb` and for every non-finite input, exactly
`1` at or above `maxDb`, and lands in `[0, 1]` strictly between the
bounds; `parseFairlightLevels` maps the digital-silence sentinel
(maximum channel level `≤ -32768`) to `(-∞, 0)`. -/
theorem C9_level_codec_boundaries (minDb maxDb curve : ℝ)
    (h : minDb < maxDb) (hcurve : 0 ≤ curve) :
    (∀ x : ℝ, x ≤ minDb → dbToNormalizedLevel (JsNum.fin x) minDb maxDb curve = 0) ∧
    (dbToNormalizedLevel JsNum.posInf minDb maxDb curve = 0 ∧
     dbToNormalizedLevel JsNum.negInf minDb maxDb curve = 0 ∧
     dbToNormalizedLevel JsNum.nan minDb maxDb curve = 0) ∧
    (∀ x : ℝ, x ≥ maxDb → dbToNormalizedLevel (JsNum.fin x) minDb maxDb curve = 1) ∧
    (∀ x : ℝ, minDb < x → x < maxDb →
      0 ≤ dbToNormalizedLevel (JsNum.fin x) minDb maxDb curve ∧
      dbToNormalizedLevel (JsNum.fin x) minDb maxDb curve ≤ 1) ∧
    (∀ p : FairlightProps,
      max (p.leftLevel.getD 0) (p.rightLevel.getD 0) ≤ -32768 →
      parseFairlightLevels (some p) minDb maxDb = (JsNum.negInf, 0)) ∧
    parseFairlightLevels none minDb maxDb = (JsNum.negInf, 0) := by
  refine ⟨?_, ⟨rfl, rfl, rfl⟩, ?_, ?_, ?_, rfl⟩
  · intro x hx
    simp [dbToNormalizedLevel, hx]
  · intro x hx
    have hnot : ¬x ≤ minDb := not_le.mpr (lt_of_lt_of_le h hx)
    simp [dbToNormalizedLevel, hnot, hx]
  · intro x hx1 hx2
    have hnot1 : ¬x ≤ minDb := not_le.mpr hx1
    have hnot2 : ¬x ≥ maxDb := not_le.mpr hx2
    simp only [dbToNormalizedLevel, if_neg hnot1, if_neg hnot2]
    have hbase0 : (0 : ℝ) ≤
        max 0 (min 1 (((10:ℝ) ^ (x / 20) - (10:ℝ) ^ (minDb / 20)) /
          ((10:ℝ) ^ (maxDb / 20) - (10:ℝ) ^ (minDb / 20)))) := le_max_left _ _
    have hbase1 :
        max 0 (min 1 (((10:ℝ) ^ (x / 20) - (10:ℝ) ^ (minDb / 20)) /
          ((10:ℝ) ^ (maxDb / 20) - (10:ℝ) ^ (minDb / 20)))) ≤ 1 :=
      max_le zero_le_one (min_le_left _ _)
    exact ⟨Real.rpow_nonneg hbase0 curve, Real.rpow_le_one hbase0 hbase1 hcurve⟩
  · intro p hp
    simp [parseFairlightLevels, hp]

/-- Witness for C9 at the default `-40 dB … 0 dB` range. -/
theorem C9_level_codec_boundaries_witness :
    ((-40 : ℝ) < 0 ∧ (0 : ℝ) ≤ 7 / 10) ∧
    dbToNormalizedLevel (JsNum.fin (-50)) (-40) 0 (7 / 10) = 0 ∧
    dbToNormalizedLevel JsNum.negInf (-40) 0 (7 / 10) = 0 ∧
    dbToNormalizedLevel (JsNum.fin 5) (-40) 0 (7 / 10) = 1 ∧
    (0 ≤ dbToNormalizedLevel (JsNum.fin (-20)) (-40) 0 (7 / 10) ∧
     dbToNormalizedLevel (JsNum.fin (-20)) (-40) 0 (7 / 10) ≤ 1) ∧
    parseFairlightLevels (some ⟨some (-32768), some (-32768)⟩) (-40) 0 =
      (JsNum.negInf, 0) :=
  ⟨⟨by norm_num, by norm_num⟩,
   (C9_level_codec_boundaries (-40) 0 (7 / 10) (by norm_num) (by norm_num)).1
     (-50) (by norm_num),
   (C9_level_codec_boundaries (-40) 0 (7 / 10) (by norm_num) (by norm_num)).2.1.2.1,
   (C9_level_codec_boundaries (-40) 0 (7 / 10) (by norm_num) (by norm_num)).2.2.1
     5 (by norm_num),
   (C9_level_codec_boundaries (-40) 0 (7 / 10) (by norm_num) (by norm_num)).2.2.2.1
     (-20) (by norm_num) (by norm_num),
   (C9_level_codec_boundaries (-40) 0 (7 / 10) (by norm_num) (by norm_num)).2.2.2.2.1
     ⟨some (-32768), some (-32768)⟩ (by norm_num)⟩

/-- Every camera in `getCamerasWithAudio` has average above threshold. -/
lemma active_avg_gt (cfg : Config) (t : AudioLevelTracker) (now : Int) :
    ∀ c ∈ t.getCamerasWithAudio cfg now,
      c.avgVolume > cfg.audio.volumeThreshold := by
  intro c hc
  unfold AudioLevelTracker.getCamerasWithAudio at hc
  rw [List.mem_filterMap] at hc
  obtain ⟨⟨k, w⟩, hmem, hf⟩ := hc
  obtain ⟨-, -, havg, -, rfl⟩ := (activeEntry_eq_some cfg now k w c).mp hf
  exact havg

/-- Result analysis of the `getBestSingleCamera` fold: a returned best
is either the seed, or the first list element attaining the running
maximum among the kept candidates. -/
lemma foldl_bestStep_spec (keep : ActiveCamera → Bool) :
    ∀ (l : List ActiveCamera) (m : ℚ) (b0 : Option ActiveCamera) (b : ActiveCamera),
      (l.foldl (bestStep keep) (m, b0)).2 = some b →
      (b0 = some b ∧ ∀ c ∈ l, keep c = true → c.avgVolume ≤ m) ∨
      (∃ pre post, l = pre ++ b :: post ∧ keep b = true ∧ m < b.avgVolume ∧
        (∀ c ∈ pre, keep c = true → c.avgVolume < b.avgVolume) ∧
        (∀ c ∈ post, keep c = true → c.avgVolume ≤ b.avgVolume)) := by
  intro l
  induction l with
  | nil =>
    intro m b0 b hb
    exact Or.inl ⟨hb, by simp⟩
  | cons c l ih =>
    intro m b0 b hb
    rw [List.foldl_cons] at hb
    by_cases hc : keep c = true ∧ c.avgVolume > m
    · rw [show bestStep keep (m, b0) c = (c.avgVolume, some c) from by
        unfold bestStep; rw [if_pos ⟨hc.1, hc.2⟩]] at hb
      rcases ih c.avgVolume (some c) b hb with ⟨hb0, hall⟩ |
        ⟨pre, post, heq, hkb, hmb, hpre, hpost⟩
      · obtain rfl : c = b := Option.some.inj hb0
        exact Or.inr ⟨[], l, rfl, hc.1, hc.2, by simp, hall⟩
      · refine Or.inr ⟨c :: pre, post, by rw [heq, List.cons_append], hkb, lt_trans hc.2 hmb, ?_, hpost⟩
        intro c' hc'
        rcases List.mem_cons.mp hc' with rfl | hc'
        · exact fun _ => hmb
        · exact hpre c' hc'
    · rw [show bestStep keep (m, b0) c = (m, b0) from by
        unfold bestStep; rw [if_neg (fun hcc => hc ⟨hcc.1, hcc.2⟩)]] at hb
      rcases ih m b0 b hb with ⟨hb0, hall⟩ |
        ⟨pre, post, heq, hkb, hmb, hpre, hpost⟩
      · refine Or.inl ⟨hb0, ?_⟩
        intro c' hc' hk
        rcases List.mem_cons.mp hc' with rfl | hc'
        · rcases not_and_or.mp hc with hno | hno
          · exact absurd hk hno
          · exact not_lt.mp hno
        · exact hall c' hc' hk
      · refine Or.inr ⟨c :: pre, post, by rw [heq, List.cons_append], hkb, hmb, ?_, hpost⟩
        intro c' hc' hk
        rcases List.mem_cons.mp hc' with rfl | hc'
        · rcases not_and_or.mp hc with hno | hno
          · exact absurd hk hno
          · exact lt_of_le_of_lt (not_lt.mp hno) hmb
        · exact hpre c' hc' hk

/-- When the fold returns no best, the seed was empty and no kept
candidate beat the running maximum. -/
lemma foldl_bestStep_none (keep : ActiveCamera → Bool) :
    ∀ (l : List ActiveCamera) (m : ℚ) (b0 : Option ActiveCamera),
      (l.foldl (bestStep keep) (m, b0)).2 = none →
      b0 = none ∧ ∀ c ∈ l, keep c = true → c.avgVolume ≤ m := by
  intro l
  induction l with
  | nil =>
    intro m b0 hb
    exact ⟨hb, by simp⟩
  | cons c l ih =>
    intro m b0 hb
    rw [List.foldl_cons] at hb
    by_cases hc : keep c = true ∧ c.avgVolume > m
    · rw [show bestStep keep (m, b0) c = (c.avgVolume, some c) from by
        unfold bestStep; rw [if_pos ⟨hc.1, hc.2⟩]] at hb
      exact absurd (ih _ _ hb).1 (by simp)
    · rw [show bestStep keep (m, b0) c = (m, b0) from by
        unfold bestStep; rw [if_neg (fun hcc => hc ⟨hcc.1, hcc.2⟩)]] at hb
      obtain ⟨hb0, hall⟩ := ih m b0 hb
      refine ⟨hb0, ?_⟩
      intro c' hc' hk
      rcases List.mem_cons.mp hc' with rfl | hc'
      · rcases not_and_or.mp hc with hno | hno
        · exact absurd hk hno
        · exact not_lt.mp hno
      · exact hall c' hc' hk

/-- C10.  No current camera: with `currentCameraId = null` the
best-single search applies no `minVolumeDifference` exclusion; assuming
a non-negative threshold it returns none exactly when no input is
active, and any returned best is the first-seen active input with the
strictly highest average. -/
theorem C10_no_current_camera (cfg : Config) (t : AudioLevelTracker) (now : Int)
    (hthr : 0 ≤ cfg.audio.volumeThreshold) :
    (t.getBestSingleCamera cfg now none = none ↔
      t.getCamerasWithAudio cfg now = []) ∧
    (∀ b, t.getBestSingleCamera cfg now none = some b →
      ∃ pre post, t.getCamerasWithAudio cfg now = pre ++ b :: post ∧
        (∀ c ∈ pre, c.avgVolume < b.avgVolume) ∧
        (∀ c ∈ post, c.avgVolume ≤ b.avgVolume)) := by
  refine ⟨⟨?_, ?_⟩, ?_⟩
  · intro hnone
    obtain ⟨-, hall⟩ := foldl_bestStep_none _ _ _ _ hnone
    cases hac : t.getCamerasWithAudio cfg now with
    | nil => rfl
    | cons c cs =>
      exfalso
      have hmem : c ∈ t.getCamerasWithAudio cfg now := by rw [hac]; simp
      have h1 := active_avg_gt cfg t now c hmem
      have h2 := hall c hmem rfl
      exact absurd h2 (not_le.mpr (lt_of_le_of_lt hthr h1))
  · intro hac
    unfold AudioLevelTracker.getBestSingleCamera
    rw [hac]
    rfl
  · intro b hb
    rcases foldl_bestStep_spec _ _ _ _ _ hb with ⟨hb0, -⟩ |
      ⟨pre, post, heq, -, -, hpre, hpost⟩
    · exact absurd hb0 (by simp)
    · exact ⟨pre, post, heq, fun c hc => hpre c hc rfl, fun c hc => hpost c hc rfl⟩

/-- Witness for C10 at a concrete two-way tie (first-seen input wins). -/
theorem C10_no_current_camera_witness :
    0 ≤ demoConfig.audio.volumeThreshold ∧
    demoTracker2.getBestSingleCamera demoConfig 1000 none =
      some ⟨1, 1 / 2, [⟨1 / 2, none, 0⟩]⟩ ∧
    (∃ pre post, demoTracker2.getCamerasWithAudio demoConfig 1000 =
        pre ++ (⟨1, 1 / 2, [⟨1 / 2, none, 0⟩]⟩ : ActiveCamera) :: post ∧
      (∀ c ∈ pre, c.avgVolume < (1 : ℚ) / 2) ∧
      (∀ c ∈ post, c.avgVolume ≤ (1 : ℚ) / 2)) := by
  have hthr : (0 : ℚ) ≤ demoConfig.audio.volumeThreshold := by
    norm_num [demoConfig]
  have hb : demoTracker2.getBestSingleCamera demoConfig 1000 none =
      some ⟨1, 1 / 2, [⟨1 / 2, none, 0⟩]⟩ := by
    norm_num [demoTracker2, demoConfig, AudioLevelTracker.getBestSingleCamera,
      AudioLevelTracker.getCamerasWithAudio, List.filterMap, activeEntry, avgVolume,
      headTimestamp, bestStep, keepAgainstCurrent, AudioLevelTracker.currentAvg,
      mapLookup]
  exact ⟨hthr, hb, (C10_no_current_camera demoConfig demoTracker2 1000 hthr).2 _ hb⟩

/-- Bool-to-order reading of the hysteresis filter. -/
lemma keepAgainstCurrent_some_iff (cfg : Config) (t : AudioLevelTracker)
    (cur : Int) (c : ActiveCamera) :
    keepAgainstCurrent cfg t (some cur) c = true ↔
      c.avgVolume - t.currentAvg cur ≥ cfg.audio.minVolumeDifference := by
  simp [keepAgainstCurrent, not_lt]

/-- Tracker for the C7 tie-break counterexample: input 2 was seen
before input 1, their windows tie. -/
def demoTrackerC7 : AudioLevelTracker :=
  ⟨[(2, [⟨1 / 2, none, 0⟩]), (1, [⟨1 / 2, none, 0⟩])], 500⟩

/-- C7 counterexample: with a non-null current camera and two
qualifying active inputs tied on average, `getBestSingleCamera` returns
the first-seen input (id 2), not the ascending-id one (id 1), refuting
the claimed input-id-ascending tie-break. -/
theorem C7_counterexample :
    demoTrackerC7.getBestSingleCamera demoConfig 1000 (some 5) =
      some ⟨2, 1 / 2, [⟨1 / 2, none, 0⟩]⟩ ∧
    demoTrackerC7.getCamerasWithAudio demoConfig 1000 =
      [⟨2, 1 / 2, [⟨1 / 2, none, 0⟩]⟩, ⟨1, 1 / 2, [⟨1 / 2, none, 0⟩]⟩] ∧
    keepAgainstCurrent demoConfig demoTrackerC7 (some 5)
      ⟨1, 1 / 2, [⟨1 / 2, none, 0⟩]⟩ = true ∧
    (2 : Int) ≠ 1 := by
  refine ⟨?_, ?_, ?_, by decide⟩ <;>
    norm_num [demoTrackerC7, demoConfig, AudioLevelTracker.getBestSingleCamera,
      AudioLevelTracker.getCamerasWithAudio, List.filterMap, activeEntry, avgVolume,
      headTimestamp, bestStep, keepAgainstCurrent, AudioLevelTracker.currentAvg,
      mapLookup]

/-- C7 (amended).  Best-single-candidate selection with a non-null
current camera: any returned input qualifies (its average exceeds the
current camera's by at least `minVolumeDifference`) and is the
first-seen qualifying active input with the highest average — ties are
broken by first-seen (window-map insertion) order. -/
theorem C7_best_single_candidate_amended (cfg : Config) (t : AudioLevelTracker)
    (now : Int) (cur : Int) (b : ActiveCamera)
    (hb : t.getBestSingleCamera cfg now (some cur) = some b) :
    b.avgVolume - t.currentAvg cur ≥ cfg.audio.minVolumeDifference ∧
    (∃ pre post, t.getCamerasWithAudio cfg now = pre ++ b :: post ∧
      (∀ c ∈ pre, c.avgVolume - t.currentAvg cur ≥ cfg.audio.minVolumeDifference →
        c.avgVolume < b.avgVolume) ∧
      (∀ c ∈ post, c.avgVolume - t.currentAvg cur ≥ cfg.audio.minVolumeDifference →
        c.avgVolume ≤ b.avgVolume)) := by
  rcases foldl_bestStep_spec _ _ _ _ _ hb with ⟨hb0, -⟩ |
    ⟨pre, post, heq, hkb, -, hpre, hpost⟩
  · exact absurd hb0 (by simp)
  · rw [keepAgainstCurrent_some_iff] at hkb
    exact ⟨hkb, pre, post, heq,
      fun c hc hk => hpre c hc ((keepAgainstCurrent_some_iff cfg t cur c).mpr hk),
      fun c hc hk => hpost c hc ((keepAgainstCurrent_some_iff cfg t cur c).mpr hk)⟩

/-- Witness for the amended C7. -/
theorem C7_best_single_candidate_amended_witness :
    demoTracker2.getBestSingleCamera demoConfig 1000 (some 5) =
      some ⟨1, 1 / 2, [⟨1 / 2, none, 0⟩]⟩ ∧
    ((⟨1, 1 / 2, [⟨1 / 2, none, 0⟩]⟩ : ActiveCamera).avgVolume -
        demoTracker2.currentAvg 5 ≥ demoConfig.audio.minVolumeDifference ∧
      (∃ pre post, demoTracker2.getCamerasWithAudio demoConfig 1000 =
          pre ++ (⟨1, 1 / 2, [⟨1 / 2, none, 0⟩]⟩ : ActiveCamera) :: post ∧
        (∀ c ∈ pre,
          c.avgVolume - demoTracker2.currentAvg 5 ≥
            demoConfig.audio.minVolumeDifference →
          c.avgVolume < (1 : ℚ) / 2) ∧
        (∀ c ∈ post,
          c.avgVolume - demoTracker2.currentAvg 5 ≥
            demoConfig.audio.minVolumeDifference →
          c.avgVolume ≤ (1 : ℚ) / 2))) := by
  have hb : demoTracker2.getBestSingleCamera demoConfig 1000 (some 5) =
      some ⟨1, 1 / 2, [⟨1 / 2, none, 0⟩]⟩ := by
    norm_num [demoTracker2, demoConfig, AudioLevelTracker.getBestSingleCamera,
      AudioLevelTracker.getCamerasWithAudio, List.filterMap, activeEntry, avgVolume,
      headTimestamp, bestStep, keepAgainstCurrent, AudioLevelTracker.currentAvg,
      mapLookup]
  exact ⟨hb, C7_best_single_candidate_amended demoConfig demoTracker2 1000 5 _ hb⟩

/-- The target the scheduler effectively sees (`decision?.switchTo`
with JS falsiness of target `0`). -/
def effTarget : Option Decision → Option Int
  | none => none
  | some d => if d.switchTo = 0 then none else some d.switchTo

/-- Unfolding of the effective-decision guard. -/
lemma effDecision_eq_some (d : Option Decision) (c : Decision) :
    effDecision d = some c ↔ d = some c ∧ c.switchTo ≠ 0 := by
  cases d with
  | none => simp [effDecision]
  | some d' =>
    simp only [effDecision]
    by_cases h : d'.switchTo = 0
    · rw [if_pos h]
      constructor
      · intro hh; exact Option.noConfusion hh
      · rintro ⟨hh, hne⟩
        obtain rfl : d' = c := Option.some.inj hh
        exact absurd h hne
    · rw [if_neg h]
      constructor
      · intro hh
        obtain rfl : d' = c := Option.some.inj hh
        exact ⟨rfl, h⟩
      · rintro ⟨hh, -⟩
        rw [hh]

/-- `effDecision` and `effTarget` agree. -/
lemma effTarget_of_effDecision (d : Option Decision) (c : Decision)
    (h : effDecision d = some c) : effTarget d = some c.switchTo := by
  obtain ⟨rfl, hne⟩ := (effDecision_eq_some d c).mp h
  simp [effTarget, hne]

/-- The configured single/narrow confirmation delay (`?? 800`). -/
def switchDelaySingle (cfg : Config) : Int := cfg.audio.switchDelayMs.getD 800

/-- The configured wide confirmation delay (`?? 300`). -/
def switchDelayWide (cfg : Config) : Int := cfg.audio.switchDelayWideMs.getD 300

/-- `delayFor` is always one of the two configured delays. -/
lemma delayFor_pos (cfg : Config) (d : Decision)
    (h1 : 0 < switchDelaySingle cfg) (h2 : 0 < switchDelayWide cfg) :
    0 < delayFor cfg d := by
  unfold delayFor
  unfold switchDelaySingle at h1
  unfold switchDelayWide at h2
  split <;> assumption

/-- Execution inversion for the delay-confirmation tail: with a
positive applicable delay, a switch fires only from a pre-existing
pending entry for the same target whose confirmation time has fully
elapsed. -/
lemma proceedToDelay_exec_inv (cfg : Config) (s : SchedulerState) (d : Decision)
    (now : Int) (T : Int) (hdpos : 0 < delayFor cfg d)
    (hev : (proceedToDelay cfg s d now).2 = some T) :
    ∃ p, s.pendingSwitch = some p ∧ p.targetId = T ∧ d.switchTo = T ∧
      now - p.scheduledAt ≥ delayFor cfg d := by
  simp only [proceedToDelay] at hev
  rw [if_neg (not_le.mpr hdpos)] at hev
  split at hev
  · simp at hev
  · rename_i p hp
    split at hev
    · simp at hev
    · rename_i hne
      split at hev
      · simp at hev
      · rename_i hlt
        unfold switchToCamera at hev
        split at hev
        · simp at hev
        · have hT : p.targetId = T := by simpa using hev
          have htar : p.targetId = d.switchTo := not_ne_iff.mp hne
          exact ⟨p, hp, hT, htar ▸ hT, not_lt.mp hlt⟩

/-- Pending-entry inversion for the delay-confirmation tail: with a
positive applicable delay, any pending entry left after the call
targets the current candidate and either pre-existed unchanged or was
(re)started at this instant. -/
lemma proceedToDelay_pending_inv (cfg : Config) (s : SchedulerState) (d : Decision)
    (now : Int) (p' : PendingSwitch) (hdpos : 0 < delayFor cfg d)
    (hp : (proceedToDelay cfg s d now).1.pendingSwitch = some p') :
    p'.targetId = d.switchTo ∧
      (s.pendingSwitch = some p' ∨ p'.scheduledAt = now) := by
  simp only [proceedToDelay] at hp
  rw [if_neg (not_le.mpr hdpos)] at hp
  split at hp
  · have : p' = ⟨d.switchTo, d, now⟩ := by simpa using hp.symm
    subst this
    exact ⟨rfl, Or.inr rfl⟩
  · rename_i p hpend
    split at hp
    · have : p' = ⟨d.switchTo, d, now⟩ := by simpa using hp.symm
      subst this
      exact ⟨rfl, Or.inr rfl⟩
    · rename_i hne
      split at hp
      · have : s.pendingSwitch = some p' := by simpa using hp
        rw [hpend] at this
        obtain rfl : p = p' := Option.some.inj this
        exact ⟨(not_ne_iff.mp hne), Or.inl hpend⟩
      · unfold switchToCamera at hp
        split at hp <;> simp at hp

/-- Execution inversion for a full scheduler step with positive
configured delays: any emitted switch comes from a matured pending
entry for the step's own candidate target. -/
lemma evalCore_exec_inv (cfg : Config) (s : SchedulerState) (d : Option Decision)
    (now T : Int)
    (h1 : 0 < switchDelaySingle cfg) (h2 : 0 < switchDelayWide cfg)
    (hev : (evaluateSwitchCore cfg s d now).2 = some T) :
    ∃ p c, s.pendingSwitch = some p ∧ p.targetId = T ∧ effDecision d = some c ∧
      c.switchTo = T ∧ now - p.scheduledAt ≥ delayFor cfg c := by
  simp only [evaluateSwitchCore] at hev
  split at hev
  · split at hev <;> simp at hev
  · rename_i d' heff
    split at hev
    · simp at hev
    · split at hev
      · rename_i hwide
        cases hws : s.wideHoldSingleStartedAt with
        | none =>
          simp only [hws, Option.getD_some, sub_self] at hev
          rw [if_pos hwide.2.2] at hev
          simp at hev
        | some t0 =>
          simp only [hws, Option.getD_some] at hev
          split at hev
          · simp at hev
          · obtain ⟨p, hp, hT, htar, helapsed⟩ :=
              proceedToDelay_exec_inv cfg s d' now T (delayFor_pos cfg d' h1 h2) hev
            exact ⟨p, d', hp, hT, heff, htar, helapsed⟩
      · obtain ⟨p, hp, hT, htar, helapsed⟩ :=
          proceedToDelay_exec_inv cfg _ d' now T (delayFor_pos cfg d' h1 h2) hev
        exact ⟨p, d', hp, hT, heff, htar, helapsed⟩

/-- Pending-entry inversion for a full scheduler step with positive
configured delays. -/
lemma evalCore_pending_inv (cfg : Config) (s : SchedulerState) (d : Option Decision)
    (now : Int) (p' : PendingSwitch)
    (h1 : 0 < switchDelaySingle cfg) (h2 : 0 < switchDelayWide cfg)
    (hp : (evaluateSwitchCore cfg s d now).1.pendingSwitch = some p') :
    (∃ c, effDecision d = some c ∧ c.switchTo = p'.targetId) ∧
    (s.pendingSwitch = some p' ∨ p'.scheduledAt = now) := by
  simp only [evaluateSwitchCore] at hp
  split at hp
  · split at hp <;> simp at hp
  · rename_i d' heff
    split at hp
    · simp at hp
    · split at hp
      · rename_i hwide
        cases hws : s.wideHoldSingleStartedAt with
        | none =>
          simp only [hws, Option.getD_some, sub_self] at hp
          rw [if_pos hwide.2.2] at hp
          simp at hp
        | some t0 =>
          simp only [hws, Option.getD_some] at hp
          split at hp
          · simp at hp
          · obtain ⟨htar, hrest⟩ :=
              proceedToDelay_pending_inv cfg s d' now p' (delayFor_pos cfg d' h1 h2) hp
            exact ⟨⟨d', heff, htar.symm⟩, hrest⟩
      · obtain ⟨htar, hrest⟩ :=
          proceedToDelay_pending_inv cfg _ d' now p' (delayFor_pos cfg d' h1 h2) hp
        exact ⟨⟨d', heff, htar.symm⟩, hrest⟩

/-- Provenance of an executed switch along a scheduler run: either the
confirming pending entry was (re)started at some step `j` of the run
(and the candidate target stayed fixed from `j` through execution), or
it already existed in the initial state (and the target stayed fixed
from the start). -/
lemma traceCore_exec_provenance (cfg : Config)
    (h1 : 0 < switchDelaySingle cfg) (h2 : 0 < switchDelayWide cfg) :
    ∀ (steps : List (Option Decision × Int)) (s0 : SchedulerState) (i : Nat) (T : Int),
      (traceGen (stepCore cfg) s0 steps)[i]? = some (some T) →
      (∃ j, j ≤ i ∧
        (∀ k, j ≤ k → k ≤ i → ∃ st, steps[k]? = some st ∧ effTarget st.1 = some T) ∧
        (∃ sti stj ci, steps[i]? = some sti ∧ steps[j]? = some stj ∧
          effDecision sti.1 = some ci ∧ ci.switchTo = T ∧
          sti.2 - stj.2 ≥ delayFor cfg ci)) ∨
      (∃ p, s0.pendingSwitch = some p ∧ p.targetId = T ∧
        (∀ k, k ≤ i → ∃ st, steps[k]? = some st ∧ effTarget st.1 = some T) ∧
        (∃ sti ci, steps[i]? = some sti ∧ effDecision sti.1 = some ci ∧
          ci.switchTo = T ∧ sti.2 - p.scheduledAt ≥ delayFor cfg ci)) := by
  intro steps
  induction steps with
  | nil =>
    intro s0 i T hi
    simp [traceGen] at hi
  | cons st rest ih =>
    intro s0 i T hi
    obtain ⟨d, now⟩ := st
    rw [show traceGen (stepCore cfg) s0 ((d, now) :: rest) =
      (stepCore cfg s0 (d, now)).2 ::
        traceGen (stepCore cfg) (stepCore cfg s0 (d, now)).1 rest from rfl] at hi
    cases i with
    | zero =>
      simp only [List.getElem?_cons_zero] at hi
      have hev : (evaluateSwitchCore cfg s0 d now).2 = some T := Option.some.inj hi
      obtain ⟨p, c, hp, hT, heff, hcT, helapsed⟩ :=
        evalCore_exec_inv cfg s0 d now T h1 h2 hev
      refine Or.inr ⟨p, hp, hT, ?_, ⟨(d, now), c, by simp, heff, hcT, helapsed⟩⟩
      intro k hk
      obtain rfl : k = 0 := Nat.le_zero.mp hk
      exact ⟨(d, now), by simp, by rw [effTarget_of_effDecision d c heff, hcT]⟩
    | succ i =>
      simp only [List.getElem?_cons_succ] at hi
      rcases ih (stepCore cfg s0 (d, now)).1 i T hi with
        ⟨j, hj, hcont, sti, stj, ci, hsti, hstj, heffi, hciT, hdel⟩ |
        ⟨p, hp, hT, hcont, sti, ci, hsti, heffi, hciT, hdel⟩
      · refine Or.inl ⟨j + 1, Nat.succ_le_succ hj, ?_, ?_⟩
        · intro k hk1 hk2
          cases k with
          | zero => omega
          | succ k =>
            obtain ⟨st', hst', htar'⟩ :=
              hcont k (Nat.le_of_succ_le_succ hk1) (Nat.le_of_succ_le_succ hk2)
            exact ⟨st', by simpa using hst', htar'⟩
        · exact ⟨sti, stj, ci, by simpa using hsti, by simpa using hstj,
            heffi, hciT, hdel⟩
      · obtain ⟨⟨c0, heff0, hc0T⟩, hdisj⟩ :=
          evalCore_pending_inv cfg s0 d now p h1 h2 hp
        have htar0 : effTarget d = some T := by
          rw [effTarget_of_effDecision d c0 heff0, hc0T, hT]
        rcases hdisj with hpre | hstart
        · refine Or.inr ⟨p, hpre, hT, ?_,
            ⟨sti, ci, by simpa using hsti, heffi, hciT, hdel⟩⟩
          intro k hk
          cases k with
          | zero => exact ⟨(d, now), by simp, htar0⟩
          | succ k =>
            obtain ⟨st', hst', htar'⟩ := hcont k (Nat.le_of_succ_le_succ hk)
            exact ⟨st', by simpa using hst', htar'⟩
        · refine Or.inl ⟨0, Nat.zero_le _, ?_, ?_⟩
          · intro k hk1 hk2
            cases k with
            | zero => exact ⟨(d, now), by simp, htar0⟩
            | succ k =>
              obtain ⟨st', hst', htar'⟩ := hcont k (Nat.le_of_succ_le_succ hk2)
              exact ⟨st', by simpa using hst', htar'⟩
          · refine ⟨sti, (d, now), ci, by simpa using hsti, by simp, heffi, hciT, ?_⟩
            rw [← hstart]
            exact hdel

/-- C1.  Confirmation-delay restart: with both configured switch delays
positive, whenever a scheduler run from a pending-free state executes a
switch to `T` at step `i`, there is a step `j ≤ i` at which the pending
entry was started such that the effective candidate target is `T` at
every step from `j` through `i`, and the time elapsed between steps `j`
and `i` is at least the delay applicable to the executing candidate; a
target change or disappearance before that discards the pending switch
and restarts the confirmation window. -/
theorem C1_confirmation_delay_restart (cfg : Config)
    (h1 : 0 < switchDelaySingle cfg) (h2 : 0 < switchDelayWide cfg)
    (s0 : SchedulerState) (h0 : s0.pendingSwitch = none)
    (steps : List (Option Decision × Int)) (i : Nat) (T : Int)
    (hev : (traceGen (stepCore cfg) s0 steps)[i]? = some (some T)) :
    ∃ j, j ≤ i ∧
      (∀ k, j ≤ k → k ≤ i → ∃ st, steps[k]? = some st ∧ effTarget st.1 = some T) ∧
      (∃ sti stj ci, steps[i]? = some sti ∧ steps[j]? = some stj ∧
        effDecision sti.1 = some ci ∧ ci.switchTo = T ∧
        sti.2 - stj.2 ≥ delayFor cfg ci) := by
  rcases traceCore_exec_provenance cfg h1 h2 steps s0 i T hev with h | ⟨p, hp, -⟩
  · exact h
  · rw [h0] at hp
    exact absurd hp (by simp)

/-- Two-step run for the C1 witness: the same single candidate at
`t = 0` and `t = 1000`, confirming after the 800 ms delay. -/
def demoStepsC1 : List (Option Decision × Int) :=
  [(some (Decision.single 1 1 []), 0), (some (Decision.single 1 1 []), 1000)]

/-- Witness for C1 on the concrete run. -/
theorem C1_confirmation_delay_restart_witness :
    ((0 : Int) < switchDelaySingle demoConfig ∧
      (0 : Int) < switchDelayWide demoConfig ∧
      SchedulerState.init.pendingSwitch = none ∧
      (traceGen (stepCore demoConfig) SchedulerState.init demoStepsC1)[1]? =
        some (some 1)) ∧
    (∃ j, j ≤ 1 ∧
      (∀ k, j ≤ k → k ≤ 1 →
        ∃ st, demoStepsC1[k]? = some st ∧ effTarget st.1 = some 1) ∧
      (∃ sti stj ci, demoStepsC1[1]? = some sti ∧ demoStepsC1[j]? = some stj ∧
        effDecision sti.1 = some ci ∧ ci.switchTo = 1 ∧
        sti.2 - stj.2 ≥ delayFor demoConfig ci)) := by
  have htr : (traceGen (stepCore demoConfig) SchedulerState.init demoStepsC1)[1]? =
      some (some 1) := by decide
  exact ⟨⟨by decide, by decide, rfl, htr⟩,
    C1_confirmation_delay_restart demoConfig (by decide) (by decide)
      SchedulerState.init rfl demoStepsC1 1 1 htr⟩

/-- Trace length of a run equals the number of steps. -/
lemma traceGen_length {α : Type} (f : SchedulerState → α → SchedulerState × Option Int) :
    ∀ (l : List α) (s : SchedulerState), (traceGen f s l).length = l.length := by
  intro l
  induction l with
  | nil => intro s; rfl
  | cons a l ih => intro s; simp [traceGen, ih]

/-- Tracing a prefix gives the prefix of the trace. -/
lemma traceGen_take {α : Type} (f : SchedulerState → α → SchedulerState × Option Int) :
    ∀ (l : List α) (n : Nat) (s : SchedulerState),
      traceGen f s (l.take n) = (traceGen f s l).take n := by
  intro l
  induction l with
  | nil => intro n s; simp [traceGen]
  | cons a l ih =>
    intro n s
    cases n with
    | zero => simp [traceGen]
    | succ n => simp [traceGen, List.take_succ_cons, ih]

/-- A no-candidate evaluation while sitting on the wide camera clears
only the pending switch: camera and wide-hold state are untouched and
no switch fires. -/
lemma step_none_wide (cfg : Config) (s : SchedulerState) (now : Int)
    (hcam : s.currentCamera = some cfg.wideCameraId) :
    (evaluateSwitchCore cfg s none now).1.currentCamera = s.currentCamera ∧
    (evaluateSwitchCore cfg s none now).1.wideHoldSingleStartedAt =
      s.wideHoldSingleStartedAt ∧
    (evaluateSwitchCore cfg s none now).2 = none := by
  simp only [evaluateSwitchCore, effDecision]
  split
  · rename_i hne
    exact absurd hcam hne
  · exact ⟨rfl, rfl, rfl⟩

/-- First sighting of a single-speaker candidate on the wide camera
with a positive wide hold: the hold starts at this instant and the
evaluation is suppressed. -/
lemma step_wideHold_start (cfg : Config) (s : SchedulerState) (c : Decision)
    (now : Int)
    (hcam : s.currentCamera = some cfg.wideCameraId)
    (hstart : s.wideHoldSingleStartedAt = none)
    (hr : c.reason = Reason.single) (h0 : c.switchTo ≠ 0)
    (hw : c.switchTo ≠ cfg.wideCameraId)
    (hhold : 0 < cfg.audio.wideHoldBeforeSingleMs.getD 0) :
    (evaluateSwitchCore cfg s (some c) now).1.currentCamera = s.currentCamera ∧
    (evaluateSwitchCore cfg s (some c) now).1.wideHoldSingleStartedAt = some now ∧
    (evaluateSwitchCore cfg s (some c) now).1.pendingSwitch = none ∧
    (evaluateSwitchCore cfg s (some c) now).2 = none := by
  refine ⟨?_, ?_, ?_, ?_⟩ <;>
    simp [evaluateSwitchCore, effDecision, h0, hstart, hcam, hr, hw, hhold]

/-- A later single-speaker candidate inside the hold window: the hold
start time is preserved (even if the target changed) and the evaluation
is suppressed. -/
lemma step_wideHold_suppress (cfg : Config) (s : SchedulerState) (c : Decision)
    (now t0 : Int)
    (hcam : s.currentCamera = some cfg.wideCameraId)
    (hstart : s.wideHoldSingleStartedAt = some t0)
    (hr : c.reason = Reason.single) (h0 : c.switchTo ≠ 0)
    (hw : c.switchTo ≠ cfg.wideCameraId)
    (hhold : 0 < cfg.audio.wideHoldBeforeSingleMs.getD 0)
    (hwin : now - t0 < cfg.audio.wideHoldBeforeSingleMs.getD 0) :
    (evaluateSwitchCore cfg s (some c) now).1.currentCamera = s.currentCamera ∧
    (evaluateSwitchCore cfg s (some c) now).1.wideHoldSingleStartedAt = some t0 ∧
    (evaluateSwitchCore cfg s (some c) now).1.pendingSwitch = none ∧
    (evaluateSwitchCore cfg s (some c) now).2 = none := by
  refine ⟨?_, ?_, ?_, ?_⟩ <;>
    simp [evaluateSwitchCore, effDecision, h0, hstart, hcam, hr, hw, hhold, hwin]

/-- Once the hold window has fully elapsed, the wide-hold gate passes
the evaluation through to the delay-confirmation logic unchanged. -/
lemma step_wideHold_pass (cfg : Config) (s : SchedulerState) (c : Decision)
    (now t0 : Int)
    (hcam : s.currentCamera = some cfg.wideCameraId)
    (hstart : s.wideHoldSingleStartedAt = some t0)
    (hr : c.reason = Reason.single) (h0 : c.switchTo ≠ 0)
    (hw : c.switchTo ≠ cfg.wideCameraId)
    (hhold : 0 < cfg.audio.wideHoldBeforeSingleMs.getD 0)
    (hge : ¬(now - t0 < cfg.audio.wideHoldBeforeSingleMs.getD 0)) :
    evaluateSwitchCore cfg s (some c) now = proceedToDelay cfg s c now := by
  simp [evaluateSwitchCore, effDecision, h0, hstart, hcam, hr, hw, hhold, hge]

/-- A scheduler input allowed during a wide-hold flicker run: no
candidate, or a single-reason candidate for some non-wide, non-zero
target. -/
def singleFlickStep (cfg : Config) (st : Option Decision × Int) : Prop :=
  st.1 = none ∨ ∃ c, st.1 = some c ∧ c.reason = Reason.single ∧
    c.switchTo ≠ 0 ∧ c.switchTo ≠ cfg.wideCameraId

/-- While the camera sits on the wide shot with an in-progress wide
hold started at `t0`, any run of flicker steps inside the hold window
keeps the camera, keeps the hold start time, and fires no switch. -/
lemma wideHold_run_invariant (cfg : Config)
    (hhold : 0 < cfg.audio.wideHoldBeforeSingleMs.getD 0) (t0 : Int) :
    ∀ (steps : List (Option Decision × Int)) (s : SchedulerState),
      s.currentCamera = some cfg.wideCameraId →
      s.wideHoldSingleStartedAt = some t0 →
      (∀ st ∈ steps, singleFlickStep cfg st) →
      (∀ st ∈ steps, st.2 - t0 < cfg.audio.wideHoldBeforeSingleMs.getD 0) →
      (runGen (stepCore cfg) s steps).currentCamera = some cfg.wideCameraId ∧
      (runGen (stepCore cfg) s steps).wideHoldSingleStartedAt = some t0 ∧
      (∀ ev ∈ traceGen (stepCore cfg) s steps, ev = none) := by
  intro steps
  induction steps with
  | nil =>
    intro s h1 h2 _ _
    exact ⟨h1, h2, by simp [traceGen]⟩
  | cons st rest ih =>
    intro s h1 h2 hok hwin
    obtain ⟨d, now⟩ := st
    have hst := hok (d, now) (by simp)
    have hwn := hwin (d, now) (by simp)
    have hfields :
        (stepCore cfg s (d, now)).1.currentCamera = some cfg.wideCameraId ∧
        (stepCore cfg s (d, now)).1.wideHoldSingleStartedAt = some t0 ∧
        (stepCore cfg s (d, now)).2 = none := by
      rcases hst with hnone | ⟨c, hc, hr, hz, hw⟩
      · have hd : d = none := hnone
        subst hd
        obtain ⟨ha, hb, hc'⟩ := step_none_wide cfg s now h1
        exact ⟨by rw [show (stepCore cfg s ((none : Option Decision), now)).1.currentCamera =
          (evaluateSwitchCore cfg s none now).1.currentCamera from rfl, ha, h1],
          by rw [show (stepCore cfg s ((none : Option Decision), now)).1.wideHoldSingleStartedAt =
            (evaluateSwitchCore cfg s none now).1.wideHoldSingleStartedAt from rfl, hb, h2],
          hc'⟩
      · have hd : d = some c := hc
        subst hd
        obtain ⟨ha, hb, -, hd'⟩ :=
          step_wideHold_suppress cfg s c now t0 h1 h2 hr hz hw hhold hwn
        exact ⟨by rw [show (stepCore cfg s (some c, now)).1.currentCamera =
          (evaluateSwitchCore cfg s (some c) now).1.currentCamera from rfl, ha, h1],
          hb, hd'⟩
    obtain ⟨ha, hb, hev⟩ := hfields
    obtain ⟨r1, r2, r3⟩ := ih (stepCore cfg s (d, now)).1 ha hb
      (fun st hmem => hok st (by simp [hmem]))
      (fun st hmem => hwin st (by simp [hmem]))
    refine ⟨r1, r2, ?_⟩
    intro ev hmem
    rw [show traceGen (stepCore cfg) s ((d, now) :: rest) =
      (stepCore cfg s (d, now)).2 ::
        traceGen (stepCore cfg) (stepCore cfg s (d, now)).1 rest from rfl] at hmem
    rcases List.mem_cons.mp hmem with rfl | hmem
    · exact hev
    · exact r3 ev hmem

/-- C2.  Wide-hold flicker tolerance: starting on the wide camera with
no hold in progress and a positive `wideHoldBeforeSingleMs`, a first
single-reason candidate at `t0` starts the hold at `t0`; across later
single-reason candidates (even with changed target) and no-candidate
flickers, as long as each evaluation lies inside the hold window the
hold start stays `t0`, the camera stays wide, and every evaluation is
suppressed; at the first single-reason evaluation at or past
`t0 + wideHoldBeforeSingleMs` the gate stops suppressing and the
evaluation falls through to the delay-confirmation logic. -/
theorem C2_wide_hold_flicker_tolerance (cfg : Config)
    (hhold : 0 < cfg.audio.wideHoldBeforeSingleMs.getD 0)
    (s0 : SchedulerState)
    (hcam0 : s0.currentCamera = some cfg.wideCameraId)
    (hstart0 : s0.wideHoldSingleStartedAt = none)
    (c0 : Decision) (t0 : Int) (rest : List (Option Decision × Int))
    (hc0 : c0.reason = Reason.single ∧ c0.switchTo ≠ 0 ∧
      c0.switchTo ≠ cfg.wideCameraId)
    (hrest : ∀ st ∈ rest, singleFlickStep cfg st) :
    (∀ i, i < ((some c0, t0) :: rest).length →
      (∀ st ∈ ((some c0, t0) :: rest).take (i + 1),
        st.2 - t0 < cfg.audio.wideHoldBeforeSingleMs.getD 0) →
      (traceGen (stepCore cfg) s0 ((some c0, t0) :: rest))[i]? = some none ∧
      (runGen (stepCore cfg) s0
        (((some c0, t0) :: rest).take (i + 1))).wideHoldSingleStartedAt = some t0 ∧
      (runGen (stepCore cfg) s0
        (((some c0, t0) :: rest).take (i + 1))).currentCamera =
          some cfg.wideCameraId) ∧
    (∀ i c st, ((some c0, t0) :: rest)[i]? = some st → st.1 = some c →
      (∀ st' ∈ ((some c0, t0) :: rest).take i,
        st'.2 - t0 < cfg.audio.wideHoldBeforeSingleMs.getD 0) →
      st.2 - t0 ≥ cfg.audio.wideHoldBeforeSingleMs.getD 0 →
      evaluateSwitchCore cfg
          (runGen (stepCore cfg) s0 (((some c0, t0) :: rest).take i)) (some c) st.2 =
        proceedToDelay cfg
          (runGen (stepCore cfg) s0 (((some c0, t0) :: rest).take i)) c st.2) := by
  obtain ⟨hr0, h00, hw0⟩ := hc0
  have hstep0 := step_wideHold_start cfg s0 c0 t0 hcam0 hstart0 hr0 h00 hw0 hhold
  have hs1cam : (stepCore cfg s0 (some c0, t0)).1.currentCamera =
      some cfg.wideCameraId := by
    rw [show (stepCore cfg s0 (some c0, t0)).1.currentCamera =
      (evaluateSwitchCore cfg s0 (some c0) t0).1.currentCamera from rfl,
      hstep0.1, hcam0]
  have hs1hold : (stepCore cfg s0 (some c0, t0)).1.wideHoldSingleStartedAt =
      some t0 := hstep0.2.1
  constructor
  · intro i hi hwin
    cases i with
    | zero =>
      refine ⟨?_, hs1hold, hs1cam⟩
      rw [show traceGen (stepCore cfg) s0 ((some c0, t0) :: rest) =
        (stepCore cfg s0 (some c0, t0)).2 ::
          traceGen (stepCore cfg) (stepCore cfg s0 (some c0, t0)).1 rest from rfl]
      simp only [List.getElem?_cons_zero]
      rw [show (stepCore cfg s0 (some c0, t0)).2 =
        (evaluateSwitchCore cfg s0 (some c0) t0).2 from rfl, hstep0.2.2.2]
    | succ i =>
      have hi' : i < rest.length := by simpa using hi
      have hinv := wideHold_run_invariant cfg hhold t0 (rest.take (i + 1))
        (stepCore cfg s0 (some c0, t0)).1 hs1cam hs1hold
        (fun st hmem => hrest st (List.take_subset _ _ hmem))
        (fun st hmem => hwin st (by
          rw [List.take_succ_cons]
          exact List.mem_cons_of_mem _ hmem))
      obtain ⟨r1, r2, r3⟩ := hinv
      refine ⟨?_, r2, r1⟩
      rw [show traceGen (stepCore cfg) s0 ((some c0, t0) :: rest) =
        (stepCore cfg s0 (some c0, t0)).2 ::
          traceGen (stepCore cfg) (stepCore cfg s0 (some c0, t0)).1 rest from rfl]
      simp only [List.getElem?_cons_succ]
      have hlt : i < (traceGen (stepCore cfg)
          (stepCore cfg s0 (some c0, t0)).1 rest).length := by
        rw [traceGen_length]; exact hi'
      have hsome := List.getElem?_eq_getElem hlt
      have hq : ((traceGen (stepCore cfg) (stepCore cfg s0 (some c0, t0)).1
          rest).take (i + 1))[i]? =
          some (traceGen (stepCore cfg) (stepCore cfg s0 (some c0, t0)).1 rest)[i] := by
        rw [List.getElem?_take, if_pos (Nat.lt_succ_self i)]
        exact hsome
      have hmem : (traceGen (stepCore cfg) (stepCore cfg s0 (some c0, t0)).1 rest)[i] ∈
          traceGen (stepCore cfg) (stepCore cfg s0 (some c0, t0)).1 (rest.take (i + 1)) := by
        rw [traceGen_take]
        exact List.getElem?_mem hq
      rw [hsome, r3 _ hmem]
  · intro i cand st hst hstc hwin hge
    cases i with
    | zero =>
      exfalso
      have hst0 : (some c0, t0) = st := by simpa using hst
      subst hst0
      simp only at hge
      omega
    | succ i =>
      have hst' : rest[i]? = some st := by simpa using hst
      have hmem : st ∈ rest := List.getElem?_mem hst'
      have hsf := hrest st hmem
      rcases hsf with hnone | ⟨c2, hc2, hr, hz, hw⟩
      · rw [hnone] at hstc
        exact absurd hstc (by simp)
      obtain rfl : c2 = cand := by
        rw [hc2] at hstc
        exact Option.some.inj hstc
      have hinv := wideHold_run_invariant cfg hhold t0 (rest.take i)
        (stepCore cfg s0 (some c0, t0)).1 hs1cam hs1hold
        (fun st' hmem' => hrest st' (List.take_subset _ _ hmem'))
        (fun st' hmem' => hwin st' (by
          rw [List.take_succ_cons]
          exact List.mem_cons_of_mem _ hmem'))
      obtain ⟨r1, r2, -⟩ := hinv
      rw [show ((some c0, t0) :: rest).take (i + 1) =
        (some c0, t0) :: rest.take i from List.take_succ_cons]
      rw [show runGen (stepCore cfg) s0 ((some c0, t0) :: rest.take i) =
        runGen (stepCore cfg) (stepCore cfg s0 (some c0, t0)).1 (rest.take i) from rfl]
      exact step_wideHold_pass cfg _ c2 st.2 t0 r1 r2 hr hz hw hhold (not_lt.mpr hge)

/-- Initial scheduler state for the C2 witness: sitting on the wide
camera. -/
def demoS0C2 : SchedulerState := ⟨some 3, 0, none, none, none⟩

/-- Flicker steps for the C2 witness: the single speaker's identity
changes, then a no-candidate tick. -/
def demoRestC2 : List (Option Decision × Int) :=
  [(some (Decision.single 2 1 []), 100), (none, 200)]

/-- Witness for C2 on a concrete flicker run inside the hold window. -/
theorem C2_wide_hold_flicker_tolerance_witness :
    ((0 : Int) < demoConfig.audio.wideHoldBeforeSingleMs.getD 0 ∧
      demoS0C2.currentCamera = some demoConfig.wideCameraId ∧
      demoS0C2.wideHoldSingleStartedAt = none ∧
      (∀ st ∈ ((some (Decision.single 1 1 []), (0 : Int)) :: demoRestC2).take 3,
        st.2 - 0 < demoConfig.audio.wideHoldBeforeSingleMs.getD 0)) ∧
    ((traceGen (stepCore demoConfig) demoS0C2
        ((some (Decision.single 1 1 []), 0) :: demoRestC2))[2]? = some none ∧
      (runGen (stepCore demoConfig) demoS0C2
        (((some (Decision.single 1 1 []), 0) ::
          demoRestC2).take 3)).wideHoldSingleStartedAt = some 0 ∧
      (runGen (stepCore demoConfig) demoS0C2
        (((some (Decision.single 1 1 []), 0) :: demoRestC2).take 3)).currentCamera =
        some demoConfig.wideCameraId) := by
  have hrest : ∀ st ∈ demoRestC2, singleFlickStep demoConfig st := by
    intro st hst
    rcases List.mem_cons.mp hst with rfl | hst
    · exact Or.inr ⟨Decision.single 2 1 [], rfl, rfl, by decide, by decide⟩
    rcases List.mem_cons.mp hst with rfl | hst
    · exact Or.inl rfl
    · cases hst
  refine ⟨⟨by decide, rfl, rfl, by decide⟩, ?_⟩
  exact (C2_wide_hold_flicker_tolerance demoConfig (by decide) demoS0C2 rfl rfl
    (Decision.single 1 1 []) 0 demoRestC2 ⟨rfl, by decide, by decide⟩ hrest).1 2
    (by decide) (by decide)

/-- Any switch emitted by the delay-confirmation tail targets the
candidate's own target. -/
lemma proceedToDelay_exec_target (cfg : Config) (s : SchedulerState) (d : Decision)
    (now T : Int) (hev : (proceedToDelay cfg s d now).2 = some T) :
    d.switchTo = T := by
  simp only [proceedToDelay] at hev
  split at hev
  · unfold switchToCamera at hev
    split at hev
    · simp at hev
    · simpa using hev
  · split at hev
    · simp at hev
    · rename_i p hp
      split at hev
      · simp at hev
      · rename_i hne
        split at hev
        · simp at hev
        · unfold switchToCamera at hev
          split at hev
          · simp at hev
          · have hT : p.targetId = T := by simpa using hev
            rw [← hT]
            exact (not_ne_iff.mp hne).symm

/-- Any switch emitted by a scheduler step comes from the step's own
effective decision, for that decision's target. -/
lemma evalCore_exec_decision (cfg : Config) (s : SchedulerState) (d : Option Decision)
    (now T : Int) (hev : (evaluateSwitchCore cfg s d now).2 = some T) :
    ∃ c, effDecision d = some c ∧ c.switchTo = T := by
  simp only [evaluateSwitchCore] at hev
  split at hev
  · split at hev <;> simp at hev
  · rename_i d' heff
    split at hev
    · simp at hev
    · split at hev
      · rename_i hwide
        cases hws : s.wideHoldSingleStartedAt with
        | none =>
          simp only [hws, Option.getD_some, sub_self] at hev
          rw [if_pos hwide.2.2] at hev
          simp at hev
        | some t0 =>
          simp only [hws, Option.getD_some] at hev
          split at hev
          · simp at hev
          · exact ⟨d', heff, proceedToDelay_exec_target cfg _ d' now T hev⟩
      · exact ⟨d', heff, proceedToDelay_exec_target cfg _ d' now T hev⟩

/-- Last-switch-time bookkeeping of the delay-confirmation tail. -/
lemma proceedToDelay_step_cases (cfg : Config) (s : SchedulerState) (d : Decision)
    (now : Int) (s' : SchedulerState) (ev : Option Int)
    (hres : proceedToDelay cfg s d now = (s', ev)) :
    (ev = none ∧ s'.lastSwitchTime = s.lastSwitchTime) ∨
    (∃ T, ev = some T ∧ s'.lastSwitchTime = now) := by
  simp only [proceedToDelay] at hres
  split at hres
  · unfold switchToCamera at hres
    split at hres
    · injection hres with ha hb
      subst ha; subst hb
      exact Or.inl ⟨rfl, rfl⟩
    · injection hres with ha hb
      subst ha; subst hb
      exact Or.inr ⟨d.switchTo, rfl, rfl⟩
  · split at hres
    · injection hres with ha hb
      subst ha; subst hb
      exact Or.inl ⟨rfl, rfl⟩
    · split at hres
      · injection hres with ha hb
        subst ha; subst hb
        exact Or.inl ⟨rfl, rfl⟩
      · split at hres
        · injection hres with ha hb
          subst ha; subst hb
          exact Or.inl ⟨rfl, rfl⟩
        · rename_i p hp hne hlt
          unfold switchToCamera at hres
          split at hres
          · injection hres with ha hb
            subst ha; subst hb
            exact Or.inl ⟨rfl, rfl⟩
          · injection hres with ha hb
            subst ha; subst hb
            exact Or.inr ⟨p.targetId, rfl, rfl⟩

/-- Last-switch-time bookkeeping of a full scheduler step: it is
untouched unless the step fires a switch, in which case it becomes the
step's instant. -/
lemma evalCore_step_cases (cfg : Config) (s : SchedulerState) (d : Option Decision)
    (now : Int) (s' : SchedulerState) (ev : Option Int)
    (hres : evaluateSwitchCore cfg s d now = (s', ev)) :
    (ev = none ∧ s'.lastSwitchTime = s.lastSwitchTime) ∨
    (∃ T, ev = some T ∧ s'.lastSwitchTime = now) := by
  simp only [evaluateSwitchCore] at hres
  split at hres
  · split at hres <;>
    · injection hres with ha hb
      subst ha; subst hb
      exact Or.inl ⟨rfl, rfl⟩
  · rename_i d' heff
    split at hres
    · injection hres with ha hb
      subst ha; subst hb
      exact Or.inl ⟨rfl, rfl⟩
    · split at hres
      · rename_i hwide
        cases hws : s.wideHoldSingleStartedAt with
        | none =>
          simp only [hws, Option.getD_some, sub_self] at hres
          rw [if_pos hwide.2.2] at hres
          injection hres with ha hb
          subst ha; subst hb
          exact Or.inl ⟨rfl, rfl⟩
        | some t0 =>
          simp only [hws, Option.getD_some] at hres
          split at hres
          · injection hres with ha hb
            subst ha; subst hb
            exact Or.inl ⟨rfl, rfl⟩
          · exact proceedToDelay_step_cases cfg s d' now s' ev hres
      · exact proceedToDelay_step_cases cfg
          { s with wideHoldSingleStartedAt := none, wideHoldSingleTargetId := none }
          d' now s' ev hres

/-- Runs decompose along list append. -/
lemma runGen_append {α : Type} (f : SchedulerState → α → SchedulerState × Option Int) :
    ∀ (l1 l2 : List α) (s : SchedulerState),
      runGen f s (l1 ++ l2) = runGen f (runGen f s l1) l2 := by
  intro l1
  induction l1 with
  | nil => intro l2 s; rfl
  | cons a l1 ih =>
    intro l2 s
    simp only [List.cons_append, runGen]
    exact ih l2 (f s a).1

/-- The trace entry at `i` is the event of stepping the state reached
after the first `i` steps. -/
lemma traceGen_getElem? {α : Type} (f : SchedulerState → α → SchedulerState × Option Int) :
    ∀ (l : List α) (i : Nat) (s : SchedulerState) (a : α),
      l[i]? = some a →
      (traceGen f s l)[i]? = some (f (runGen f s (l.take i)) a).2 := by
  intro l
  induction l with
  | nil => intro i s a h; simp at h
  | cons b l ih =>
    intro i s a h
    cases i with
    | zero =>
      obtain rfl : b = a := by simpa using h
      simp [traceGen, runGen]
    | succ i =>
      simp only [List.getElem?_cons_succ] at h
      simp only [traceGen, List.getElem?_cons_succ, List.take_succ_cons, runGen]
      exact ih i (f s b).1 a h

/-- The state after `i + 1` steps is one step past the state after `i`
steps. -/
lemma runGen_take_succ {α : Type} (f : SchedulerState → α → SchedulerState × Option Int) :
    ∀ (l : List α) (i : Nat) (s : SchedulerState) (a : α),
      l[i]? = some a →
      runGen f s (l.take (i + 1)) = (f (runGen f s (l.take i)) a).1 := by
  intro l
  induction l with
  | nil => intro i s a h; simp at h
  | cons b l ih =>
    intro i s a h
    cases i with
    | zero =>
      obtain rfl : b = a := by simpa using h
      simp [runGen]
    | succ i =>
      simp only [List.getElem?_cons_succ] at h
      simp only [List.take_succ_cons, runGen]
      exact ih i (f s b).1 a h

/-- Along a full-pipeline run, the last-switch time never drops below a
bound satisfied by the initial state and all step instants. -/
lemma runFull_lastSwitchTime_ge (cfg : Config) (a : Int) :
    ∀ (l : List (AudioLevelTracker × Int)) (s : SchedulerState),
      a ≤ s.lastSwitchTime → (∀ st ∈ l, a ≤ st.2) →
      a ≤ (runGen (stepFull cfg) s l).lastSwitchTime := by
  intro l
  induction l with
  | nil => intro s hs _; exact hs
  | cons st rest ih =>
    intro s hs hl
    obtain ⟨t, now⟩ := st
    have hcase := evalCore_step_cases cfg s
      (SwitchDecider.decide cfg t s.currentCamera now s.lastSwitchTime) now
      (stepFull cfg s (t, now)).1 (stepFull cfg s (t, now)).2 rfl
    have hnext : a ≤ (stepFull cfg s (t, now)).1.lastSwitchTime := by
      rcases hcase with ⟨-, heq⟩ | ⟨T, -, heq⟩
      · rw [heq]; exact hs
      · rw [heq]; exact hl (t, now) (by simp)
    exact ih (stepFull cfg s (t, now)).1 hnext (fun st' hm => hl st' (by simp [hm]))

/-- C3.  Cooldown gating and non-violation: (a) every candidate the
decider returns has passed the cooldown gate for the applicable
cooldown; (b) along any full-pipeline run with positive, nondecreasing
step instants, two confirmed switches where the later one targets a
non-wide camera from a non-wide current camera are at least
`cooldownTime` apart. -/
theorem C3_cooldown_gating (cfg : Config) :
    (∀ (t : AudioLevelTracker) (cur : Option Int) (now last : Int) (c : Decision),
      SwitchDecider.decide cfg t cur now last = some c →
      ¬(last > 0 ∧ now - last < cooldownFor cfg cur c)) ∧
    (∀ (steps : List (AudioLevelTracker × Int)) (s0 : SchedulerState)
      (i1 i2 : Nat) (st1 st2 : AudioLevelTracker × Int) (T1 T2 : Int),
      i1 < i2 →
      steps[i1]? = some st1 → steps[i2]? = some st2 →
      (traceGen (stepFull cfg) s0 steps)[i1]? = some (some T1) →
      (traceGen (stepFull cfg) s0 steps)[i2]? = some (some T2) →
      T2 ≠ cfg.wideCameraId →
      (runGen (stepFull cfg) s0 (steps.take i2)).currentCamera ≠
        some cfg.wideCameraId →
      0 < st1.2 →
      List.Pairwise (fun x y => x.2 ≤ y.2) steps →
      st2.2 - st1.2 ≥ cfg.audio.cooldownTime) := by
  constructor
  · intro t cur now last c hc
    exact (decide_inv cfg t cur now last c hc).1
  · intro steps s0 i1 i2 st1 st2 T1 T2 h12 hst1 hst2 htr1 htr2 hT2w hcur hpos hpair
    have htr2' := traceGen_getElem? (stepFull cfg) steps i2 s0 st2 hst2
    have hev2 : (stepFull cfg (runGen (stepFull cfg) s0 (steps.take i2)) st2).2 =
        some T2 := Option.some.inj (htr2'.symm.trans htr2)
    obtain ⟨c, heffc, hcT⟩ := evalCore_exec_decision cfg
      (runGen (stepFull cfg) s0 (steps.take i2))
      (SwitchDecider.decide cfg st2.1
        (runGen (stepFull cfg) s0 (steps.take i2)).currentCamera st2.2
        (runGen (stepFull cfg) s0 (steps.take i2)).lastSwitchTime)
      st2.2 T2 hev2
    obtain ⟨hd, hc0⟩ := (effDecision_eq_some _ c).mp heffc
    have hinv := decide_inv cfg st2.1
      (runGen (stepFull cfg) s0 (steps.take i2)).currentCamera st2.2
      (runGen (stepFull cfg) s0 (steps.take i2)).lastSwitchTime c hd
    have hreason : c.reason = Reason.single := by
      cases hr : c.reason with
      | silence =>
        have := hinv.2.1 (Or.inl hr)
        rw [hcT] at this
        exact absurd this hT2w
      | multi =>
        have := hinv.2.1 (Or.inr hr)
        rw [hcT] at this
        exact absurd this hT2w
      | single => rfl
    have hcool : cooldownFor cfg
        (runGen (stepFull cfg) s0 (steps.take i2)).currentCamera c =
        cfg.audio.cooldownTime := by
      unfold cooldownFor
      rw [if_neg]
      rintro ((h | h) | ⟨hcw, -⟩)
      · rw [hreason] at h; exact Reason.noConfusion h
      · rw [hreason] at h; exact Reason.noConfusion h
      · exact hcur hcw
    have htr1' := traceGen_getElem? (stepFull cfg) steps i1 s0 st1 hst1
    have hev1 : (stepFull cfg (runGen (stepFull cfg) s0 (steps.take i1)) st1).2 =
        some T1 := Option.some.inj (htr1'.symm.trans htr1)
    have hlast1 : (runGen (stepFull cfg) s0 (steps.take (i1 + 1))).lastSwitchTime =
        st1.2 := by
      rw [runGen_take_succ (stepFull cfg) steps i1 s0 st1 hst1]
      rcases evalCore_step_cases cfg (runGen (stepFull cfg) s0 (steps.take i1))
        (SwitchDecider.decide cfg st1.1
          (runGen (stepFull cfg) s0 (steps.take i1)).currentCamera st1.2
          (runGen (stepFull cfg) s0 (steps.take i1)).lastSwitchTime)
        st1.2 (stepFull cfg (runGen (stepFull cfg) s0 (steps.take i1)) st1).1
        (stepFull cfg (runGen (stepFull cfg) s0 (steps.take i1)) st1).2 rfl with
        ⟨hnone, -⟩ | ⟨T, -, heq⟩
      · exact absurd hev1 (by rw [hnone]; simp)
      · exact heq
    have hsplit : steps.take i2 =
        steps.take (i1 + 1) ++ (steps.take i2).drop (i1 + 1) := by
      have h1 : (steps.take i2).take (i1 + 1) = steps.take (i1 + 1) := by
        rw [List.take_take]
        congr 1
        omega
      rw [← h1, List.take_append_drop]
    have hge_last : st1.2 ≤
        (runGen (stepFull cfg) s0 (steps.take i2)).lastSwitchTime := by
      rw [show runGen (stepFull cfg) s0 (steps.take i2) =
        runGen (stepFull cfg) (runGen (stepFull cfg) s0 (steps.take (i1 + 1)))
          ((steps.take i2).drop (i1 + 1)) from by
        rw [← runGen_append, ← hsplit]]
      apply runFull_lastSwitchTime_ge cfg st1.2
      · exact le_of_eq hlast1.symm
      · intro st' hm
        obtain ⟨k, hklt, hke⟩ := List.getElem_of_mem hm
        have hk : ((steps.take i2).drop (i1 + 1))[k]? = some st' := by
          rw [List.getElem?_eq_getElem hklt, hke]
        rw [List.getElem?_drop] at hk
        rw [List.getElem?_take] at hk
        split at hk
        · rename_i hlt2
          rw [List.getElem?_eq_some] at hk
          obtain ⟨hw, he⟩ := hk
          rw [List.getElem?_eq_some] at hst1
          obtain ⟨hw1, he1⟩ := hst1
          have hrel := List.pairwise_iff_getElem.mp hpair i1 (i1 + 1 + k) hw1 hw
            (by omega)
          rw [he1, he] at hrel
          exact hrel
        · exact absurd hk (by simp)
    have hgate := hinv.1
    rw [hcool] at hgate
    have hlastpos : 0 < (runGen (stepFull cfg) s0 (steps.take i2)).lastSwitchTime :=
      lt_of_lt_of_le hpos hge_last
    have hnoc : ¬(st2.2 - (runGen (stepFull cfg) s0 (steps.take i2)).lastSwitchTime <
        cfg.audio.cooldownTime) := fun hlt => hgate ⟨hlastpos, hlt⟩
    omega

/-- Tracker with only input 1 active (for the C3 witness). -/
def demoTrackerA : AudioLevelTracker := ⟨[(1, [⟨1 / 2, none, 0⟩])], 500⟩

/-- Tracker with only input 2 active (for the C3 witness). -/
def demoTrackerB : AudioLevelTracker := ⟨[(2, [⟨1 / 2, none, 0⟩])], 500⟩

/-- Full-pipeline run for the C3 witness: input 1 confirms at 2000 ms,
then input 2 confirms at 4800 ms. -/
def demoStepsC3 : List (AudioLevelTracker × Int) :=
  [(demoTrackerA, 1000), (demoTrackerA, 2000), (demoTrackerB, 4000), (demoTrackerB, 4800)]

/-- Witness for C3 on the concrete run: the two confirmed switches are
2800 ms apart, at least the 2000 ms cooldown. -/
theorem C3_cooldown_gating_witness :
    ((1 : Nat) < 3 ∧
      demoStepsC3[1]? = some (demoTrackerA, 2000) ∧
      demoStepsC3[3]? = some (demoTrackerB, 4800) ∧
      (traceGen (stepFull demoConfig) SchedulerState.init demoStepsC3)[1]? =
        some (some 1) ∧
      (traceGen (stepFull demoConfig) SchedulerState.init demoStepsC3)[3]? =
        some (some 2) ∧
      (2 : Int) ≠ demoConfig.wideCameraId ∧
      (runGen (stepFull demoConfig) SchedulerState.init
        (demoStepsC3.take 3)).currentCamera ≠ some demoConfig.wideCameraId ∧
      (0 : Int) < (demoTrackerA, (2000 : Int)).2 ∧
      List.Pairwise (fun x y => x.2 ≤ y.2) demoStepsC3) ∧
    (demoTrackerB, (4800 : Int)).2 - (demoTrackerA, (2000 : Int)).2 ≥
      demoConfig.audio.cooldownTime := by
  have h1 : stepFull demoConfig SchedulerState.init (demoTrackerA, 1000) =
      (⟨none, 0, some ⟨1, Decision.single 1 (1 / 2) [⟨1 / 2, none, 0⟩], 1000⟩,
        none, none⟩, none) := by
    norm_num [demoTrackerA, demoConfig, stepFull, evaluateSwitch,
      SwitchDecider.decide, evaluateSwitchCore, effDecision, proceedToDelay,
      switchToCamera, delayFor, cooldownFor, wideConfigured,
      AudioLevelTracker.getCamerasWithAudio, List.filterMap, activeEntry, avgVolume,
      headTimestamp, AudioLevelTracker.getBestSingleCamera, bestStep,
      keepAgainstCurrent, AudioLevelTracker.currentAvg, mapLookup,
      AudioLevelTracker.getSilenceDuration, SchedulerState.init, reduceCtorEq,
      Option.some_ne_none, Decision.switchTo, Decision.reason]
    simp
  have h2 : stepFull demoConfig
      (⟨none, 0, some ⟨1, Decision.single 1 (1 / 2) [⟨1 / 2, none, 0⟩], 1000⟩,
        none, none⟩ : SchedulerState) (demoTrackerA, 2000) =
      (⟨some 1, 2000, none, none, none⟩, some 1) := by
    norm_num [demoTrackerA, demoConfig, stepFull, evaluateSwitch,
      SwitchDecider.decide, evaluateSwitchCore, effDecision, proceedToDelay,
      switchToCamera, delayFor, cooldownFor, wideConfigured,
      AudioLevelTracker.getCamerasWithAudio, List.filterMap, activeEntry, avgVolume,
      headTimestamp, AudioLevelTracker.getBestSingleCamera, bestStep,
      keepAgainstCurrent, AudioLevelTracker.currentAvg, mapLookup,
      AudioLevelTracker.getSilenceDuration, reduceCtorEq, Option.some_ne_none,
      Decision.switchTo, Decision.reason]
    simp
  have h3 : stepFull demoConfig
      (⟨some 1, 2000, none, none, none⟩ : SchedulerState) (demoTrackerB, 4000) =
      (⟨some 1, 2000, some ⟨2, Decision.single 2 (1 / 2) [⟨1 / 2, none, 0⟩], 4000⟩,
        none, none⟩, none) := by
    norm_num [demoTrackerB, demoConfig, stepFull, evaluateSwitch,
      SwitchDecider.decide, evaluateSwitchCore, effDecision, proceedToDelay,
      switchToCamera, delayFor, cooldownFor, wideConfigured,
      AudioLevelTracker.getCamerasWithAudio, List.filterMap, activeEntry, avgVolume,
      headTimestamp, AudioLevelTracker.getBestSingleCamera, bestStep,
      keepAgainstCurrent, AudioLevelTracker.currentAvg, mapLookup,
      AudioLevelTracker.getSilenceDuration, reduceCtorEq, Option.some_ne_none,
      Decision.switchTo, Decision.reason]
    simp
  have h4 : stepFull demoConfig
      (⟨some 1, 2000, some ⟨2, Decision.single 2 (1 / 2) [⟨1 / 2, none, 0⟩], 4000⟩,
        none, none⟩ : SchedulerState) (demoTrackerB, 4800) =
      (⟨some 2, 4800, none, none, none⟩, some 2) := by
    norm_num [demoTrackerB, demoConfig, stepFull, evaluateSwitch,
      SwitchDecider.decide, evaluateSwitchCore, effDecision, proceedToDelay,
      switchToCamera, delayFor, cooldownFor, wideConfigured,
      AudioLevelTracker.getCamerasWithAudio, List.filterMap, activeEntry, avgVolume,
      headTimestamp, AudioLevelTracker.getBestSingleCamera, bestStep,
      keepAgainstCurrent, AudioLevelTracker.currentAvg, mapLookup,
      AudioLevelTracker.getSilenceDuration, reduceCtorEq, Option.some_ne_none,
      Decision.switchTo, Decision.reason]
    simp
  have htrace : traceGen (stepFull demoConfig) SchedulerState.init demoStepsC3 =
      [none, some 1, none, some 2] := by
    simp only [demoStepsC3, traceGen, h1, h2, h3, h4]
  have hrun3 : runGen (stepFull demoConfig) SchedulerState.init
      (demoStepsC3.take 3) =
      ⟨some 1, 2000, some ⟨2, Decision.single 2 (1 / 2) [⟨1 / 2, none, 0⟩], 4000⟩,
        none, none⟩ := by
    simp only [demoStepsC3, List.take, runGen, h1, h2, h3]
  have htr1 : (traceGen (stepFull demoConfig) SchedulerState.init demoStepsC3)[1]? =
      some (some 1) := by rw [htrace]; rfl
  have htr3 : (traceGen (stepFull demoConfig) SchedulerState.init demoStepsC3)[3]? =
      some (some 2) := by rw [htrace]; rfl
  have hcur : (runGen (stepFull demoConfig) SchedulerState.init
      (demoStepsC3.take 3)).currentCamera ≠ some demoConfig.wideCameraId := by
    rw [hrun3]
    decide
  exact ⟨⟨by decide, rfl, rfl, htr1, htr3, by decide, hcur, by decide, by decide⟩,
    (C3_cooldown_gating demoConfig).2 demoStepsC3 SchedulerState.init 1 3
      (demoTrackerA, 2000) (demoTrackerB, 4800) 1 2 (by decide) rfl rfl htr1 htr3
      (by decide) hcur (by decide) (by decide)⟩
